import Mathlib

/-!
# Overset connectivity coordinator (TiogaSTKIface)

A shallow embedding of `src/src/overset/TiogaSTKIface.C`, followed by one of the
function `FPG` of `src/src/node_kernels/BLTGammaM2015NodeKernel.C`.

* One MPI rank is a value of `TiogaSTKIface`; the parallel machine is a list of
  ranks (`World`), the rank number being the position in the list.  Collective
  calls (`all_reduce_sum`, `MPI_Allgather`, `MPI_Allgatherv`, ghosting changes,
  `copy_owned_to_shared`) are functions on the whole `World`.
* The STK mesh (`BulkData`) and the TIOGA search library are external; their
  answers are fields of `BulkData` and of `TiogaOut`.
* A C++ exception is an `Option Error` returned next to the state reached when
  it was thrown.
* Floating point payloads (coordinates, isoparametric solve) are not part of the
  model; calls whose only effect is on them are recorded in the call log.
-/

namespace tioga_nalu

/-! ## Mesh entities and the STK bulk data of one rank -/

abbrev EntityId := Nat

inductive EntityRank where
  | NODE_RANK
  | ELEM_RANK
deriving DecidableEq, Repr

/-- Handle of a mesh entity: what `bulk_.get_entity(rank, id)` returns.  Whether
the handle designates an entity present on the rank is `BulkData.is_valid`. -/
structure Entity where
  rank : EntityRank
  id : EntityId
deriving DecidableEq, Repr

/-- The pair `stk::mesh::EntityProc`: an entity and a destination rank. -/
abbrev EntityProc := Entity × Nat

/-- The part of `stk::mesh::BulkData` that the coordinator consults on one rank.
`resident` tells which entities are on the rank without the overset ghosting
(owned, shared or aura); `ghostRecv` are the entities received through the
overset ghosting; `numGhostings` counts the ghostings created so far and is the
ordinal handed out by the next `create_ghosting`. -/
structure BulkData where
  parallel_rank : Nat
  parallel_size : Nat
  resident : Entity → Bool
  parallel_owner_rank : Entity → Nat
  comm_shared_procs : Entity → List Nat
  ghostRecv : List Entity
  numGhostings : Nat

namespace BulkData

def get_entity (_b : BulkData) (r : EntityRank) (id : EntityId) : Entity :=
  ⟨r, id⟩

def is_valid (b : BulkData) (e : Entity) : Bool :=
  b.resident e || decide (e ∈ b.ghostRecv)

/-- Transcribes `bulk_.bucket(e).owned()`: an entity on the rank sits in an owned
bucket exactly when the rank is its owner. -/
def owned (b : BulkData) (e : Entity) : Bool :=
  decide (b.parallel_owner_rank e = b.parallel_rank)

end BulkData

/-! ## Fringe records and the overset manager -/

/-- The fields of `sierra::nalu::OversetInfo` that `populate_overset_info` sets
and that are not floating point: the receptor node, `owningElement_` and
`elemIsGhosted_`. -/
structure OversetInfo where
  node_ : Entity
  owningElement_ : Entity
  elemIsGhosted_ : Nat
deriving DecidableEq, Repr

/-- The members of `OversetManagerTIOGA` the coordinator reads and writes:
the fringe record list and the pointer to the overset ghosting (`none` is
`nullptr`, `some g` points to the ghosting of ordinal `g`). -/
structure OversetManagerTIOGA where
  oversetInfoVec_ : List OversetInfo
  oversetGhosting_ : Option Nat
deriving DecidableEq, Repr

/-- Modelled from the spec: `OversetManager::reset_data_structures`, which is
not part of the sources at hand.  The spec says that after a reset the fringe
list is empty and that fringe records are destroyed at the start of every
update; the ghost region is the persistent artifact and is kept. -/
def OversetManagerTIOGA.reset_data_structures (m : OversetManagerTIOGA) :
    OversetManagerTIOGA :=
  { m with oversetInfoVec_ := [] }

/-! ## Blocks, the search library and the call log -/

/-- What the coordinator uses of a `TiogaBlock`: its mesh tag and
`node_id_map()`, the map from the local search index to the global node id. -/
structure TiogaBlock where
  meshtag_ : Int
  node_id_map : List EntityId
deriving DecidableEq, Repr

/-- What TIOGA holds on one rank after `performConnectivity`: the flat array
returned by `getReceptorInfo`, and per block index the iblank array (indexed by
local node index) and the donor list (receptor rank, donor element id). -/
structure TiogaOut where
  receptors : List Int
  iblank : Nat → List Int
  donors : Nat → List (Nat × EntityId)

/-- The struct `sierra::nalu::OversetFieldData` as the coordinator uses it: a
field (named by a number here) with its row and column multiplicity, both
`int`. -/
structure OversetFieldData where
  field_ : Nat
  sizeRow_ : Int
  sizeCol_ : Int
deriving DecidableEq, Repr

/-- Calls to collaborators that have an effect outside the modelled state. -/
inductive Call where
  | pre_connectivity_sync
  | update_coords (tag : Int)
  | update_element_volumes (tag : Int)
  | adjust_cell_resolutions (tag : Int)
  | parallel_max
  | adjust_node_resolutions (tag : Int)
  | register_block (tag : Int)
  | profile
  | performConnectivity
  | reduce_fringes
  | update_iblanks (tag : Int)
  | update_iblank_cell (tag : Int)
  | post_connectivity_sync
  | modification_begin
  | destroy_ghosting (g : Nat)
  | create_ghosting (g : Nat)
  | change_ghosting (g : Nat) (add_send : List EntityProc) (remove_receive : List Entity)
  | modification_end
  | populate_ghost_comm_procs (g : Nat)
  | communicate_field_data (g : Nat)
  | sync_to_host (field : Nat)
  | modify_on_host (field : Nat)
  | sync_to_device (field : Nat)
  | register_solution (tag : Int) (fields : List OversetFieldData) (nComp : Int)
  | register_solution_field (tag : Int) (fdata : OversetFieldData)
  | dataUpdate (nComp : Int) (interptype : Int)
  | update_solution (tag : Int) (fields : List OversetFieldData)
  | update_solution_field (tag : Int) (fdata : OversetFieldData)
deriving DecidableEq, Repr

inductive Error where
  -- "Non-decoupled overset connectivity not available in NGP build"
  | unsupportedConfiguration
  -- "Invalid element encountered in overset mesh connectivity"
  | invalidElement
  -- a failed STK_ThrowAssert
  | assertion
deriving DecidableEq, Repr

/-! ## The coordinator on one rank -/

/-- State of `TiogaSTKIface` on one rank.  `tg_` is the state of the search
library, `iblank` the node field "iblank", `reduce_fringes` the option
`tiogaOpts_.reduce_fringes()`, `log` the calls made so far. -/
structure TiogaSTKIface where
  oversetManager_ : OversetManagerTIOGA
  bulk_ : BulkData
  tg_ : TiogaOut
  blocks_ : List TiogaBlock
  reduce_fringes : Bool
  elemsToGhost_ : List EntityProc
  donorIDs_ : List EntityId
  receptorIDs_ : List EntityId
  iblank : EntityId → Int
  log : List Call

/-- The parallel machine: the rank numbered `r` is the element at position `r`. -/
abbrev World := List TiogaSTKIface

/-- Lines 195-202. -/
def reset_data_structures (s : TiogaSTKIface) : TiogaSTKIface :=
  { s with
    oversetManager_ := s.oversetManager_.reset_data_structures
    elemsToGhost_ := []
    donorIDs_ := []
    receptorIDs_ := [] }

/-! ## populate_overset_info (lines 376-472) -/

/-- The loop of lines 391-461 over the pairs `receptorIDs_[i]`, `donorIDs_[i]`.
`seenIDs` is the `std::unordered_set` of processed node ids.  The two lists are
filled pairwise, so index `i` runs over both in step; a thrown exception leaves
the records pushed so far in place. -/
def populate_loop (bulk : BulkData) :
    List EntityId → List EntityId → List EntityId → List OversetInfo →
      List OversetInfo × Option Error
  | nodeID :: receptors, donorID :: donors, seenIDs, osetInfo =>
    let node := bulk.get_entity .NODE_RANK nodeID
    let elem := bulk.get_entity .ELEM_RANK donorID
    if nodeID ∈ seenIDs then
      populate_loop bulk receptors donors seenIDs osetInfo
    else if !bulk.is_valid elem then
      (osetInfo, some Error.invalidElement)
    else
      populate_loop bulk receptors donors (nodeID :: seenIDs)
        (osetInfo ++ [⟨node, elem, if bulk.owned elem then 0 else 1⟩])
  | _, _, _, osetInfo => (osetInfo, none)

/-- The function `populate_overset_info`.  `ndebug` tells whether the build compiles
`STK_ThrowAssert` out. -/
def populate_overset_info (ndebug : Bool) (s : TiogaSTKIface) :
    TiogaSTKIface × Option Error :=
  if !ndebug && s.oversetManager_.oversetInfoVec_.length != 0 then
    (s, some Error.assertion)
  else
    let r := populate_loop s.bulk_ s.receptorIDs_ s.donorIDs_ []
      s.oversetManager_.oversetInfoVec_
    ({ s with oversetManager_ := { s.oversetManager_ with oversetInfoVec_ := r.1 } }, r.2)

/-! ## get_receptor_info (lines 250-374) -/

/-- Width of `stk::mesh::EntityId` and of `size_t`. -/
def two64 : Nat := 2 ^ 64

/-- Transcribes `blocks_[mtag]->node_id_map()[nid]`.  An index outside either
array is undefined behaviour in the source; the model then yields id 0. -/
def node_id_at (blocks : List TiogaBlock) (mtag nid : Int) : EntityId :=
  if mtag < 0 ∨ nid < 0 then 0
  else
    match blocks[mtag.toNat]? with
    | some tb => tb.node_id_map.getD nid.toNat 0
    | none => 0

/-- The triples pushed to `nodesToReset` for one disagreeing node (lines
303-310): one for every sharing rank other than the local one. -/
def reset_triples (rank : Nat) (nodeID donorID : EntityId) : List Nat → List Nat
  | [] => []
  | jproc :: sprocs =>
    if jproc = rank then reset_triples rank nodeID donorID sprocs
    else jproc :: nodeID :: donorID :: reset_triples rank nodeID donorID sprocs

/-- State of the first loop of `get_receptor_info`. -/
structure ReceptorScan where
  nodesToReset : List Nat
  donorIDs_ : List EntityId
  receptorIDs_ : List EntityId
deriving DecidableEq, Repr

/-- The loop of lines 281-317 for the build without `TIOGA_HAS_UINT64T`
(`rec_offset = 3`): the array is read three entries at a time. -/
def receptor_loop (bulk : BulkData) (blocks : List TiogaBlock) (iblank : EntityId → Int) :
    List Int → ReceptorScan → ReceptorScan
  | nid :: tag :: donor :: receptors, acc =>
    let mtag := tag - 1
    let donorID : EntityId := (donor % (two64 : Int)).toNat
    let nodeID := node_id_at blocks mtag nid
    let node := bulk.get_entity .NODE_RANK nodeID
    let nodesToReset :=
      if !bulk.owned node then
        let ibval := iblank nodeID
        if ibval > -1 then
          acc.nodesToReset ++
            reset_triples bulk.parallel_rank nodeID donorID (bulk.comm_shared_procs node)
        else acc.nodesToReset
      else acc.nodesToReset
    receptor_loop bulk blocks iblank receptors
      ⟨nodesToReset, acc.donorIDs_ ++ [donorID], acc.receptorIDs_ ++ [nodeID]⟩
  | _, acc => acc

/-- Lines 256-317 on one rank: the state after the first loop and the local
`nodesToReset`. -/
def get_receptor_info_local (s : TiogaSTKIface) : TiogaSTKIface × List Nat :=
  let r := receptor_loop s.bulk_ s.blocks_ s.iblank s.tg_.receptors
    ⟨[], s.donorIDs_, s.receptorIDs_⟩
  ({ s with donorIDs_ := r.donorIDs_, receptorIDs_ := r.receptorIDs_ }, r.nodesToReset)

/-- Lines 343-346: entries 1 .. nproc of the offset table, `last` being the
entry before. -/
def offsets_loop : List Nat → Nat → List Nat
  | [], _ => []
  | nb :: nbPerProc, last => (last + nb) :: offsets_loop nbPerProc (last + nb)

/-- The table `offsets` of lines 340-346. -/
def build_offsets (nbPerProc : List Nat) : List Nat :=
  0 :: offsets_loop nbPerProc 0

/-- Writes `data` into `buf` from position `pos` on, within the buffer. -/
def write_at : List Nat → Nat → List Nat → List Nat
  | [], _, _ => []
  | b :: buf, 0, [] => b :: buf
  | _ :: buf, 0, d :: data => d :: write_at buf 0 data
  | b :: buf, pos + 1, data => b :: write_at buf pos data

/-- The receive buffer of `MPI_Allgatherv`: rank r contributes `recvcounts[r]`
entries of its send buffer at displacement `displs[r]`. -/
def allgatherv : List (List Nat) → List Nat → List Nat → List Nat → List Nat
  | send :: sends, cnt :: recvcounts, d :: displs, buf =>
    allgatherv sends recvcounts displs (write_at buf d (send.take cnt))
  | _, _, _, buf => buf

/-- The loop of lines 352-373 over the gathered triples.  The first entry of a
triple is a rank number, so its conversion to `int` is the identity. -/
def reconcile_loop (iproc : Nat) : List Nat → TiogaSTKIface → TiogaSTKIface
  | nodeProc :: nodeID :: donorID :: allEntities, s =>
    let s1 :=
      if iproc = nodeProc then
        { s with receptorIDs_ := s.receptorIDs_ ++ [nodeID],
                 donorIDs_ := s.donorIDs_ ++ [donorID] }
      else s
    let elem := s1.bulk_.get_entity .ELEM_RANK donorID
    let s2 :=
      if s1.bulk_.is_valid elem && decide (s1.bulk_.parallel_owner_rank elem = iproc) &&
          decide (nodeProc ≠ iproc) then
        { s1 with elemsToGhost_ := s1.elemsToGhost_ ++ [(elem, nodeProc)] }
      else s1
    reconcile_loop iproc allEntities s2
  | _, s => s

/-- The buffer `allEntities` every rank holds after lines 319-350, from the
`nodesToReset` of all ranks. -/
def gather_entities (nodesToReset : List (List Nat)) : List Nat :=
  let nbPerProc := nodesToReset.map List.length
  let nTotalEntities := nbPerProc.sum
  allgatherv nodesToReset nbPerProc (build_offsets nbPerProc)
    (List.replicate nTotalEntities 0)

/-- The function `get_receptor_info` on all ranks. -/
def get_receptor_info (w : World) : World :=
  let locals := w.map get_receptor_info_local
  let nbPerProc : List Nat := locals.map (fun p => p.2.length)
  let nTotalEntities : Nat := nbPerProc.sum
  if nTotalEntities < 1 then locals.map Prod.fst
  else
    let allEntities := gather_entities (locals.map Prod.snd)
    locals.map (fun p => reconcile_loop p.1.bulk_.parallel_rank allEntities p.1)

/-! ## update_ghosting (lines 204-248) -/

/-- The entities a rank receives when the ghosting change of all ranks is
committed: STK delivers an entry (entity, destination) of a sender that owns the
entity to a destination other than the sender. -/
def ghost_received (w : World) (dest : Nat) : List Entity :=
  w.flatMap (fun sender =>
    (sender.elemsToGhost_.filter (fun ep =>
      decide (ep.2 = dest) && decide (ep.2 ≠ sender.bulk_.parallel_rank) &&
        sender.bulk_.owned ep.1)).map Prod.fst)

/-- Lines 214-226 on one rank, `w` being the machine at the call. -/
def recreate_ghosting (w : World) (s : TiogaSTKIface) : TiogaSTKIface :=
  let destroyed : List Call :=
    match s.oversetManager_.oversetGhosting_ with
    | some g => [Call.destroy_ghosting g]
    | none => []
  let g := s.bulk_.numGhostings
  { s with
    oversetManager_ := { s.oversetManager_ with oversetGhosting_ := some g }
    bulk_ := { s.bulk_ with
      numGhostings := g + 1
      ghostRecv := ghost_received w s.bulk_.parallel_rank }
    log := s.log ++ [Call.modification_begin] ++ destroyed ++
      [Call.create_ghosting g, Call.change_ghosting g s.elemsToGhost_ [],
       Call.modification_end, Call.populate_ghost_comm_procs g] }

/-- Lines 241-247 on one rank. -/
def communicate_coords (s : TiogaSTKIface) : TiogaSTKIface :=
  match s.oversetManager_.oversetGhosting_ with
  | some g => { s with log := s.log ++ [Call.communicate_field_data g] }
  | none => s

/-- The result `global` of the sum reduction of lines 209-211;
`recvGhostsToRemove` is empty on every rank. -/
def ghost_counts (w : World) : Nat × Nat :=
  ((w.map (fun s => s.elemsToGhost_.length)).sum % two64,
   (w.map (fun _ => 0)).sum % two64)

/-- The function `update_ghosting` on all ranks. -/
def update_ghosting (w : World) : World :=
  let global := ghost_counts w
  let w1 :=
    if global.1 > 0 || global.2 > 0 then w.map (recreate_ghosting w)
    else w
  w1.map communicate_coords

/-! ## register_mesh, post_connectivity_work and execute -/

/-- Lines 132-156 on one rank. -/
def register_mesh (s : TiogaSTKIface) : TiogaSTKIface :=
  let s1 := reset_data_structures s
  let tags := s1.blocks_.map (fun tb => tb.meshtag_)
  { s1 with log := s1.log ++ [Call.pre_connectivity_sync] ++
      tags.flatMap (fun t =>
        [Call.update_coords t, Call.update_element_volumes t, Call.adjust_cell_resolutions t]) ++
      [Call.parallel_max] ++
      tags.flatMap (fun t => [Call.adjust_node_resolutions t, Call.register_block t]) }

/-- Modelled from the spec: `TiogaBlock::update_iblanks`, which is not part of
the sources at hand: the block writes the classification TIOGA computed for its
nodes into the node field, node `node_id_map[k]` receiving entry `k` of the
block's iblank array. -/
def TiogaBlock.update_iblanks (tb : TiogaBlock) (ib : List Int) (iblank : EntityId → Int) :
    EntityId → Int :=
  (tb.node_id_map.zip ib).foldl (fun f p => Function.update f p.1 p.2) iblank

/-- Modelled from the spec: `TiogaBlock::get_donor_info`, which is not part of
the sources at hand: for every resolved receptor whose owning rank differs from
the donor element's owning rank, the donor element is requested on the
receptor's owning rank. -/
def TiogaBlock.get_donor_info (bulk : BulkData) (donors : List (Nat × EntityId))
    (egvec : List EntityProc) : List EntityProc :=
  egvec ++ (donors.filter (fun d =>
      decide (d.1 ≠ bulk.parallel_owner_rank (bulk.get_entity .ELEM_RANK d.2)))).map
    (fun d => (bulk.get_entity .ELEM_RANK d.2, d.1))

/-- The loop of lines 161-171 on one rank; `k` is the position of the first
block of the list in `blocks_`. -/
def blocks_loop (isDecoupled : Bool) : List TiogaBlock → Nat → TiogaSTKIface → TiogaSTKIface
  | [], _, s => s
  | tb :: tbs, k, s =>
    let s1 := { s with
      iblank := tb.update_iblanks (s.tg_.iblank k) s.iblank
      log := s.log ++ [Call.update_iblanks tb.meshtag_, Call.update_iblank_cell tb.meshtag_] }
    let s2 :=
      if !isDecoupled then
        { s1 with elemsToGhost_ :=
            TiogaBlock.get_donor_info s1.bulk_ (s1.tg_.donors k) s1.elemsToGhost_ }
      else s1
    blocks_loop isDecoupled tbs (k + 1) s2

/-- The effect of `stk::mesh::copy_owned_to_shared` for the iblank field on one
rank of the machine `w`: for a shared node the rank does not own it takes the
value held by the owning rank. -/
def receive_owned (w : World) (s : TiogaSTKIface) : TiogaSTKIface :=
  { s with
    iblank := fun n =>
      let node := s.bulk_.get_entity .NODE_RANK n
      if s.bulk_.owned node || (s.bulk_.comm_shared_procs node).isEmpty then s.iblank n
      else
        match w[s.bulk_.parallel_owner_rank node]? with
        | some owner => owner.iblank n
        | none => s.iblank n }

/-- The call `stk::mesh::copy_owned_to_shared` for the iblank field. -/
def copy_owned_to_shared (w : World) : World :=
  w.map (receive_owned w)

/-- Lines 574-610 on one rank. -/
def post_connectivity_sync (s : TiogaSTKIface) : TiogaSTKIface :=
  { s with log := s.log ++ [Call.post_connectivity_sync] }

/-- The function `post_connectivity_work` on all ranks: the machine reached and, per rank,
the exception thrown if any. -/
def post_connectivity_work (ndebug isDecoupled : Bool) (w : World) :
    World × List (Option Error) :=
  let w1 := w.map (fun s => blocks_loop isDecoupled s.blocks_ 0 s)
  let w2 := copy_owned_to_shared w1
  let w3 := w2.map post_connectivity_sync
  if !isDecoupled then
    let w4 := get_receptor_info w3
    let w5 := update_ghosting w4
    let r := w5.map (populate_overset_info ndebug)
    (r.map Prod.fst, r.map Prod.snd)
  else (w3, w3.map (fun _ => none))

/-- Lines 123-127 on one rank: the search runs and leaves its output, `out`, in
the library. -/
def perform_connectivity (out : TiogaOut) (s : TiogaSTKIface) : TiogaSTKIface :=
  { s with
    tg_ := out
    log := s.log ++ [Call.profile, Call.performConnectivity] ++
      (if s.reduce_fringes then [Call.reduce_fringes] else []) }

/-- The function `execute` on all ranks.  `gpu` tells whether `KOKKOS_ENABLE_GPU` is defined,
`search r` is what the search computes on rank `r` in this cycle. -/
def execute (gpu ndebug : Bool) (search : Nat → TiogaOut) (isDecoupled : Bool) (w : World) :
    World × List (Option Error) :=
  if gpu && !isDecoupled then
    (w, w.map (fun _ => some Error.unsupportedConfiguration))
  else
    let w1 := w.map register_mesh
    let w2 := w1.map (fun s => perform_connectivity (search s.bulk_.parallel_rank) s)
    post_connectivity_work ndebug isDecoupled w2

/-- The part of a non-decoupled cycle a rank runs before the first collective
call of `post_connectivity_work`: `register_mesh`, the search, and the loop
over the blocks. -/
def prepare (search : Nat → TiogaOut) (s : TiogaSTKIface) : TiogaSTKIface :=
  blocks_loop false (register_mesh s).blocks_ 0
    (perform_connectivity (search (register_mesh s).bulk_.parallel_rank) (register_mesh s))

/-- The state in which the rank `s` of the machine `w` reaches
`get_receptor_info` in a non-decoupled cycle. -/
def synced (search : Nat → TiogaOut) (w : World) (s : TiogaSTKIface) : TiogaSTKIface :=
  post_connectivity_sync (receive_owned (w.map (prepare search)) (prepare search s))

/-- The machine at the call of `update_ghosting` in a non-decoupled cycle. -/
def cycle_until_ghosting (search : Nat → TiogaOut) (w : World) : World :=
  get_receptor_info
    ((copy_owned_to_shared (w.map (prepare search))).map post_connectivity_sync)

/-! ## load (lines 56-85) -/

/-- An entry of the `mesh_group` list of the input file; its content is read by
the block only. -/
structure MeshGroup where
  mesh_parts : List String
deriving DecidableEq, Repr

/-- What `load` reads of the YAML node besides the options handed to TIOGA: the
`mesh_group` list and the value of `mesh_tag_offset` when the key is present. -/
structure OversetYaml where
  mesh_group : List MeshGroup
  mesh_tag_offset : Option Int
deriving DecidableEq, Repr

/-- Modelled from the spec: the constructor of `TiogaBlock`, which is not part
of the sources at hand: a block is created from its mesh group with the tag it
is handed and keeps it as its unique tag; its node-id map is filled later. -/
def TiogaBlock.create (_oset_group : MeshGroup) (meshtag : Int) : TiogaBlock :=
  ⟨meshtag, []⟩

/-- The loop of lines 71-74 from index `i` on. -/
def load_loop (offset : Int) : List MeshGroup → Nat → List TiogaBlock
  | [], _ => []
  | group :: oset_groups, i =>
    TiogaBlock.create group (offset + (i : Int) + 1) :: load_loop offset oset_groups (i + 1)

/-- The function `load`: the block list it builds. -/
def load (node : OversetYaml) (s : TiogaSTKIface) : TiogaSTKIface :=
  let offset : Int :=
    match node.mesh_tag_offset with
    | some v => v
    | none => 0
  { s with blocks_ := load_loop offset node.mesh_group 0 }

/-! ## Field exchange (lines 474-553)

The component count is an `int` in the source; the model computes it in the
integers, a count outside the range of `int` being undefined behaviour there. -/

/-- The loop of lines 480-483 and 505-508: every field is synchronized to host
and its component count added to `nComp`. -/
def sync_and_count : List OversetFieldData → TiogaSTKIface → Int → TiogaSTKIface × Int
  | [], s, nComp => (s, nComp)
  | f :: fields, s, nComp =>
    sync_and_count fields { s with log := s.log ++ [Call.sync_to_host f.field_] }
      (nComp + f.sizeRow_ * f.sizeCol_)

/-- The loop `for (auto& tb : blocks_) tb->register_solution(tg_, fields, nComp)`. -/
def blocks_register_solution (fields : List OversetFieldData) (nComp : Int) :
    List TiogaBlock → TiogaSTKIface → TiogaSTKIface
  | [], s => s
  | tb :: tbs, s =>
    blocks_register_solution fields nComp tbs
      { s with log := s.log ++ [Call.register_solution tb.meshtag_ fields nComp] }

/-- The loop `for (auto& tb : blocks_) tb->update_solution(fields)`. -/
def blocks_update_solution (fields : List OversetFieldData) :
    List TiogaBlock → TiogaSTKIface → TiogaSTKIface
  | [], s => s
  | tb :: tbs, s =>
    blocks_update_solution fields tbs
      { s with log := s.log ++ [Call.update_solution tb.meshtag_ fields] }

/-- The loop of lines 493-497 and 523-527: every field is marked modified on
host and synchronized to device. -/
def modify_and_sync : List OversetFieldData → TiogaSTKIface → TiogaSTKIface
  | [], s => s
  | finfo :: fields, s =>
    modify_and_sync fields
      { s with log := s.log ++
          [Call.modify_on_host finfo.field_, Call.sync_to_device finfo.field_] }

/-- The call `tg_.dataUpdate(nComp, interptype)`. -/
def dataUpdate (nComp interptype : Int) (s : TiogaSTKIface) : TiogaSTKIface :=
  { s with log := s.log ++ [Call.dataUpdate nComp interptype] }

/-- Lines 474-498. -/
def overset_update_fields (fields : List OversetFieldData) (s : TiogaSTKIface) :
    TiogaSTKIface :=
  let row_major : Int := 0
  let r := sync_and_count fields s 0
  let s1 := blocks_register_solution fields r.2 r.1.blocks_ r.1
  let s2 := dataUpdate r.2 row_major s1
  let s3 := blocks_update_solution fields s2.blocks_ s2
  modify_and_sync fields s3

/-- Lines 500-514: the state reached and the value returned. -/
def register_solution (fields : List OversetFieldData) (s : TiogaSTKIface) :
    TiogaSTKIface × Int :=
  let r := sync_and_count fields s 0
  (blocks_register_solution fields r.2 r.1.blocks_ r.1, r.2)

/-- Lines 516-528. -/
def update_solution (fields : List OversetFieldData) (s : TiogaSTKIface) : TiogaSTKIface :=
  modify_and_sync fields (blocks_update_solution fields s.blocks_ s)

/-- The loop `for (auto& tb : blocks_) tb->register_solution(tg_, fdata)`. -/
def blocks_register_solution_field (fdata : OversetFieldData) :
    List TiogaBlock → TiogaSTKIface → TiogaSTKIface
  | [], s => s
  | tb :: tbs, s =>
    blocks_register_solution_field fdata tbs
      { s with log := s.log ++ [Call.register_solution_field tb.meshtag_ fdata] }

/-- The loop `for (auto& tb : blocks_) tb->update_solution(fdata)`. -/
def blocks_update_solution_field (fdata : OversetFieldData) :
    List TiogaBlock → TiogaSTKIface → TiogaSTKIface
  | [], s => s
  | tb :: tbs, s =>
    blocks_update_solution_field fdata tbs
      { s with log := s.log ++ [Call.update_solution_field tb.meshtag_ fdata] }

/-- Lines 530-553. -/
def overset_update_field (field : Nat) (nrows ncols : Int) (doFinalSyncToDevice : Bool)
    (s : TiogaSTKIface) : TiogaSTKIface :=
  let row_major : Int := 0
  let fdata : OversetFieldData := ⟨field, nrows, ncols⟩
  let s1 := { s with log := s.log ++ [Call.sync_to_host field] }
  let s2 := blocks_register_solution_field fdata s1.blocks_ s1
  let s3 := dataUpdate (nrows * ncols) row_major s2
  let s4 := blocks_update_solution_field fdata s3.blocks_ s3
  let s5 := { s4 with log := s4.log ++ [Call.modify_on_host field] }
  if doFinalSyncToDevice then
    { s5 with log := s5.log ++ [Call.sync_to_device field] }
  else s5

end tioga_nalu

/-! ## The pressure-gradient function of the transition model

A shallow embedding of `BLTGammaM2015NodeKernel::FPG`
(`src/src/node_kernels/BLTGammaM2015NodeKernel.C`, lines 57-82) over the
rationals in place of `double`. -/

namespace BLTGammaM2015NodeKernel

/-- The value of `out` before the final clamp (lines 71-77). -/
def FPG_unclamped (lamda0L : ℚ) : ℚ :=
  let CPG1 : ℚ := 14.68
  let CPG2 : ℚ := -7.34
  let CPG3 : ℚ := 0.0
  let CPG1_lim : ℚ := 1.5
  let CPG2_lim : ℚ := 3.0
  if lamda0L ≥ 0.0 then
    min (1.0 + CPG1 * lamda0L) CPG1_lim
  else
    min (1.0 + CPG2 * lamda0L + CPG3 * min (lamda0L + 0.0681) 0.0) CPG2_lim

/-- The function `FPG`. -/
def FPG (lamda0L : ℚ) : ℚ :=
  max (FPG_unclamped lamda0L) 0.0

end BLTGammaM2015NodeKernel

namespace tioga_nalu

/-! ## Specification-side definitions -/

/-- Deduplication by node id as the spec words it: of the (receptor node id,
donor element id) pairs, a pair is kept exactly when no earlier pair has its
node id. -/
def first_occurrences : List (EntityId × EntityId) → List (EntityId × EntityId)
  | [] => []
  | p :: ps => p :: (first_occurrences ps).filter (fun q => decide (q.1 ≠ p.1))

/-- The fringe record of a (receptor node id, donor element id) pair. -/
def fringe_record (bulk : BulkData) (p : EntityId × EntityId) : OversetInfo :=
  ⟨bulk.get_entity .NODE_RANK p.1, bulk.get_entity .ELEM_RANK p.2,
    if bulk.owned (bulk.get_entity .ELEM_RANK p.2) then 0 else 1⟩

/-- Whether the donor element of a pair resolves to a valid local element. -/
def donor_valid (bulk : BulkData) (p : EntityId × EntityId) : Bool :=
  bulk.is_valid (bulk.get_entity .ELEM_RANK p.2)

/-- The sum over all ranks of the ghost additions (`elemsToGhost_`) and removals
(`recvGhostsToRemove`, which the source leaves empty) handed to
`change_ghosting`. -/
def ghost_changes_total (w : World) : Nat :=
  (w.map (fun s => s.elemsToGhost_.length + ([] : List Entity).length)).sum

/-- The calls `update_ghosting` makes on a rank when it recreates the ghosting:
`prev` is the ghosting pointer before the call, `g` the new ghosting. -/
def recreate_calls (prev : Option Nat) (g : Nat) (add_send : List EntityProc) : List Call :=
  [Call.modification_begin] ++
    (match prev with
     | some old => [Call.destroy_ghosting old]
     | none => []) ++
    [Call.create_ghosting g, Call.change_ghosting g add_send [], Call.modification_end,
     Call.populate_ghost_comm_procs g, Call.communicate_field_data g]

/-- The calls `update_ghosting` makes on a rank when it leaves the ghosting
alone. -/
def unchanged_calls (prev : Option Nat) : List Call :=
  match prev with
  | some old => [Call.communicate_field_data old]
  | none => []

/-- The gathered buffer read as correction triples (target rank, node id,
donor id); fewer than three trailing entries are dropped. -/
def to_triples : List Nat → List (Nat × EntityId × EntityId)
  | nodeProc :: nodeID :: donorID :: rest => (nodeProc, nodeID, donorID) :: to_triples rest
  | _ => []

/-- The ghost requests the triples give rise to on rank `iproc`: one request
(donor element, target rank) for every triple whose donor element is valid on
the rank and owned by it and whose target rank is another rank, in the order of
the triples. -/
def ghost_requests (bulk : BulkData) (iproc : Nat) (triples : List (Nat × EntityId × EntityId)) :
    List EntityProc :=
  (triples.filter (fun t =>
      bulk.is_valid (bulk.get_entity .ELEM_RANK t.2.2) &&
        decide (bulk.parallel_owner_rank (bulk.get_entity .ELEM_RANK t.2.2) = iproc) &&
        decide (t.1 ≠ iproc))).map
    (fun t => (bulk.get_entity .ELEM_RANK t.2.2, t.1))

/-- The correction triples every rank holds after the gather step of a
non-decoupled cycle of the machine `w`. -/
def cycle_triples (search : Nat → TiogaOut) (w : World) : List (Nat × EntityId × EntityId) :=
  to_triples (gather_entities
    (w.map (fun t => (get_receptor_info_local (synced search w t)).2)))

/-- The triples addressed to rank `iproc`. -/
def addressed_to (iproc : Nat) (triples : List (Nat × EntityId × EntityId)) :
    List (Nat × EntityId × EntityId) :=
  triples.filter (fun t => decide (iproc = t.1))

/-- The total component count across a list of field descriptors, as the spec
words it: the sum over the list of row count times column count. -/
def component_count (fields : List OversetFieldData) : Int :=
  (fields.map (fun f => f.sizeRow_ * f.sizeCol_)).sum

/-- The calls of a combined field exchange over `blocks` with component count
`nComp` and layout flag `interptype`, in the order the spec lists them: host
sync of every field, registration by every block, the external data update,
pull-back by every block, then host-modified mark and device sync of every
field. -/
def exchange_calls (blocks : List TiogaBlock) (fields : List OversetFieldData)
    (nComp interptype : Int) : List Call :=
  fields.map (fun f => Call.sync_to_host f.field_) ++
    blocks.map (fun tb => Call.register_solution tb.meshtag_ fields nComp) ++
    [Call.dataUpdate nComp interptype] ++
    blocks.map (fun tb => Call.update_solution tb.meshtag_ fields) ++
    fields.flatMap (fun f => [Call.modify_on_host f.field_, Call.sync_to_device f.field_])

/-- The flat array `getReceptorInfo` returns for a list of receptor records
(local node index, block tag, donor element id): three entries per record. -/
def flatten_records (records : List (Int × Int × Int)) : List Int :=
  records.flatMap (fun r => [r.1, r.2.1, r.2.2])

/-- The flat `nodesToReset` layout of a list of correction triples. -/
def flatten_triples (triples : List (Nat × EntityId × EntityId)) : List Nat :=
  triples.flatMap (fun t => [t.1, t.2.1, t.2.2])

/-- The entity id an `int` entry of the receptor array stands for: the
conversion to the unsigned 64-bit `stk::mesh::EntityId`, which is the entry
itself when it is not negative. -/
def to_entity_id (donor : Int) : EntityId :=
  (donor % (two64 : Int)).toNat

/-- The node id of a receptor record: the node-id map of block (tag - 1) at the
local node index. -/
def decoded_node (blocks : List TiogaBlock) (r : Int × Int × Int) : EntityId :=
  node_id_at blocks (r.2.1 - 1) r.1

/-- The correction triples of one receptor record as the spec words them: when
the local rank does not own the node and the node's iblank value says
"not fringe" (greater than -1), one triple (target rank, node id, donor id) for
every rank sharing the node other than the local rank; none otherwise. -/
def correction_triples (bulk : BulkData) (blocks : List TiogaBlock) (iblank : EntityId → Int)
    (r : Int × Int × Int) : List (Nat × EntityId × EntityId) :=
  if bulk.owned ⟨.NODE_RANK, decoded_node blocks r⟩ = false ∧
      iblank (decoded_node blocks r) > -1 then
    ((bulk.comm_shared_procs ⟨.NODE_RANK, decoded_node blocks r⟩).filter
      (fun jproc => decide (jproc ≠ bulk.parallel_rank))).map
      (fun jproc => (jproc, decoded_node blocks r, to_entity_id r.2.2))
  else []

/-- The (receptor node id, donor element id) pairs of a fringe record list. -/
def record_pairs (recs : List OversetInfo) : List (EntityId × EntityId) :=
  recs.map (fun r => (r.node_.id, r.owningElement_.id))

/-! ## A two-rank machine used to instantiate the results

Element 10 is owned by rank 0 and element 20 by rank 1; node 1 lives on rank 0,
node 3 on rank 1, node 2 is shared by both ranks and owned by rank 0.  Every
rank has two blocks, tagged 1 and 2. -/

def demo_owner (e : Entity) : Nat :=
  match e.rank, e.id with
  | .ELEM_RANK, 20 => 1
  | .NODE_RANK, 3 => 1
  | _, _ => 0

def demo_bulk0 : BulkData where
  parallel_rank := 0
  parallel_size := 2
  resident := fun e => decide (e ∈ [Entity.mk .ELEM_RANK 10, ⟨.NODE_RANK, 1⟩, ⟨.NODE_RANK, 2⟩])
  parallel_owner_rank := demo_owner
  comm_shared_procs := fun e => if e = ⟨.NODE_RANK, 2⟩ then [1] else []
  ghostRecv := []
  numGhostings := 2

def demo_bulk1 : BulkData where
  parallel_rank := 1
  parallel_size := 2
  resident := fun e => decide (e ∈ [Entity.mk .ELEM_RANK 20, ⟨.NODE_RANK, 2⟩, ⟨.NODE_RANK, 3⟩])
  parallel_owner_rank := demo_owner
  comm_shared_procs := fun e => if e = ⟨.NODE_RANK, 2⟩ then [0] else []
  ghostRecv := []
  numGhostings := 2

def demo_out_none : TiogaOut where
  receptors := []
  iblank := fun _ => []
  donors := fun _ => []

def demo_rank0 : TiogaSTKIface where
  oversetManager_ := ⟨[], none⟩
  bulk_ := demo_bulk0
  tg_ := demo_out_none
  blocks_ := [⟨1, [1, 2]⟩, ⟨2, []⟩]
  reduce_fringes := false
  elemsToGhost_ := []
  donorIDs_ := []
  receptorIDs_ := []
  iblank := fun _ => 1
  log := []

def demo_rank1 : TiogaSTKIface where
  oversetManager_ := ⟨[], none⟩
  bulk_ := demo_bulk1
  tg_ := demo_out_none
  blocks_ := [⟨1, [2]⟩, ⟨2, [3]⟩]
  reduce_fringes := false
  elemsToGhost_ := []
  donorIDs_ := []
  receptorIDs_ := []
  iblank := fun _ => 1
  log := []

/-- Rank 0 holding the receptor list 2, 2, 1 with donors 10, 99, 10: node 2
comes twice, the second time with element 99, which is on no rank. -/
def demo_repeated : TiogaSTKIface :=
  { demo_rank0 with receptorIDs_ := [2, 2, 1], donorIDs_ := [10, 99, 10] }

/-- The two-rank machine with a ghost request pending on rank 0: element 10 for
rank 1. -/
def demo_requesting : World :=
  [{ demo_rank0 with elemsToGhost_ := [(⟨.ELEM_RANK, 10⟩, 1)] }, demo_rank1]

/-- Ownership on the second two-rank machine: every node belongs to rank 1 and
every element to rank 0. -/
def demo_fringe_owner (e : Entity) : Nat :=
  if e.rank = .NODE_RANK then 1 else 0

/-- A search output for the second two-rank machine: rank 0 sees the nodes 2 and
4 (local indices 0 and 1 of its block tagged 1) as fringe points, both with
donor element 10, which is its own; rank 1 sees the two nodes as ordinary field
points. -/
def demo_fringe_search (rank : Nat) : TiogaOut :=
  match rank with
  | 0 =>
    { receptors := [0, 1, 10, 1, 1, 10]
      iblank := fun k => if k = 0 then [-1, -1] else []
      donors := fun k => if k = 0 then [(0, 10), (0, 10)] else [] }
  | _ =>
    { receptors := []
      iblank := fun k => if k = 0 then [1, 1] else []
      donors := fun _ => [] }

/-- A second two-rank machine: the nodes 2 and 4 are shared by both ranks and
owned by rank 1, element 10 is owned by rank 0; the search has run and every
rank holds the iblank value 1 at every node. -/
def demo_two_fringes : World :=
  [{ demo_rank0 with
      bulk_ := { demo_bulk0 with
        resident := fun e =>
          decide (e ∈ [Entity.mk .ELEM_RANK 10, ⟨.NODE_RANK, 2⟩, ⟨.NODE_RANK, 4⟩])
        parallel_owner_rank := demo_fringe_owner
        comm_shared_procs := fun e => if e.rank = .NODE_RANK then [1] else [] }
      blocks_ := [⟨1, [2, 4]⟩]
      tg_ := demo_fringe_search 0 },
   { demo_rank1 with
      bulk_ := { demo_bulk1 with
        resident := fun e => decide (e ∈ [Entity.mk .NODE_RANK 2, ⟨.NODE_RANK, 4⟩])
        parallel_owner_rank := demo_fringe_owner
        comm_shared_procs := fun e => if e.rank = .NODE_RANK then [0] else [] }
      blocks_ := [⟨1, [2, 4]⟩]
      tg_ := demo_fringe_search 1 }]

/-- A search output on the two-rank machine: on rank 1 the nodes 2 and 3 are
fringe points with donor element 10, which sits in block 0 of rank 0; rank 0
sees its own nodes 1 and 2 as ordinary field points. -/
def demo_search (rank : Nat) : TiogaOut :=
  match rank with
  | 0 =>
    { receptors := []
      iblank := fun k => if k = 0 then [1, 1] else []
      donors := fun k => if k = 0 then [(1, 10)] else [] }
  | _ =>
    { receptors := [0, 1, 10, 0, 2, 10]
      iblank := fun k => if k = 0 then [-1] else [-1]
      donors := fun _ => [] }

/-- The two-rank machine once the search has run. -/
def demo_searched : World :=
  [{ demo_rank0 with tg_ := demo_search 0 }, { demo_rank1 with tg_ := demo_search 1 }]

/-! ## Lemmas on deduplication and on the record loop -/

theorem first_occurrences_filter (q : EntityId → Bool) (l : List (EntityId × EntityId)) :
    (first_occurrences l).filter (fun p => q p.1) =
      first_occurrences (l.filter (fun p => q p.1)) := by
  induction l with
  | nil => rfl
  | cons a l ih =>
    by_cases ha : q a.1 = true
    · simp only [first_occurrences, List.filter_cons, ha, if_true]
      rw [← ih, List.filter_filter, List.filter_filter]
      congr 2
      funext x
      exact Bool.and_comm _ _
    · have ha2 : q a.1 = false := by simpa using ha
      simp only [first_occurrences, List.filter_cons, ha2, Bool.false_eq_true, if_false]
      rw [← ih]
      simp only [List.filter_filter]
      congr 1
      funext x
      by_cases hx : x.1 = a.1
      · simp [hx, ha2]
      · simp [hx]

theorem first_occurrences_subset (l : List (EntityId × EntityId)) :
    ∀ p ∈ first_occurrences l, p ∈ l := by
  induction l with
  | nil => intro p hp; simp [first_occurrences] at hp
  | cons a l ih =>
    intro p hp
    simp only [first_occurrences, List.mem_cons, List.mem_filter] at hp
    rcases hp with rfl | ⟨hp, _⟩
    · exact List.mem_cons_self _ _
    · exact List.mem_cons_of_mem _ (ih p hp)

theorem first_occurrences_keys (l : List (EntityId × EntityId)) (id : EntityId) :
    id ∈ (first_occurrences l).map Prod.fst ↔ id ∈ l.map Prod.fst := by
  induction l with
  | nil => simp [first_occurrences]
  | cons a l ih =>
    simp only [first_occurrences, List.map_cons, List.mem_cons]
    by_cases h : id = a.1
    · simp [h]
    · constructor
      · rintro (h1 | h1)
        · exact absurd h1 h
        · right
          rw [← ih]
          simp only [List.mem_map, List.mem_filter] at h1 ⊢
          obtain ⟨x, ⟨hx, _⟩, rfl⟩ := h1
          exact ⟨x, hx, rfl⟩
      · rintro (h1 | h1)
        · exact absurd h1 h
        · right
          rw [← ih] at h1
          simp only [List.mem_map, List.mem_filter] at h1 ⊢
          obtain ⟨x, hx, rfl⟩ := h1
          exact ⟨x, ⟨hx, by simpa using h⟩, rfl⟩

theorem first_occurrences_nodup (l : List (EntityId × EntityId)) :
    ((first_occurrences l).map Prod.fst).Nodup := by
  induction l with
  | nil => simp [first_occurrences]
  | cons a l ih =>
    simp only [first_occurrences, List.map_cons, List.nodup_cons]
    constructor
    · intro h
      simp only [List.mem_map, List.mem_filter] at h
      obtain ⟨x, ⟨_, hx⟩, hxa⟩ := h
      simp [hxa] at hx
    · exact (ih.sublist ((List.filter_sublist _).map Prod.fst))

theorem first_occurrences_find (l : List (EntityId × EntityId)) :
    ∀ p ∈ first_occurrences l, l.find? (fun q => decide (q.1 = p.1)) = some p := by
  induction l with
  | nil => intro p hp; simp [first_occurrences] at hp
  | cons a l ih =>
    intro p hp
    simp only [first_occurrences, List.mem_cons, List.mem_filter] at hp
    rcases hp with rfl | ⟨hp, hne⟩
    · simp
    · have hne2 : ¬ a.1 = p.1 := by
        intro h
        simp [h] at hne
      rw [List.find?_cons_of_neg _ (by simpa using hne2)]
      exact ih p hp

/-- The record loop in closed form: the pairs with an unseen node id are
deduplicated, records are pushed for them up to the first invalid donor, and the
loop throws exactly when there is one. -/
theorem populate_loop_eq (bulk : BulkData) :
    ∀ (receptors donors seenIDs : List EntityId) (osetInfo : List OversetInfo),
      populate_loop bulk receptors donors seenIDs osetInfo =
        (osetInfo ++ ((first_occurrences ((receptors.zip donors).filter
            (fun p => !decide (p.1 ∈ seenIDs)))).takeWhile (donor_valid bulk)).map
              (fringe_record bulk),
         if (first_occurrences ((receptors.zip donors).filter
            (fun p => !decide (p.1 ∈ seenIDs)))).all (donor_valid bulk) then none
         else some Error.invalidElement) := by
  intro receptors
  induction receptors with
  | nil => intro donors seenIDs osetInfo; simp [populate_loop, first_occurrences]
  | cons nodeID receptors ih =>
    intro donors seenIDs osetInfo
    cases donors with
    | nil => simp [populate_loop, first_occurrences]
    | cons donorID donors =>
      by_cases hseen : nodeID ∈ seenIDs
      · rw [populate_loop]
        simp only [hseen, if_true, List.zip_cons_cons, List.filter_cons, decide_True,
          Bool.not_true, Bool.false_eq_true, if_false]
        exact ih donors seenIDs osetInfo
      · have hfilter : (first_occurrences ((receptors.zip donors).filter
              (fun p => !decide (p.1 ∈ seenIDs)))).filter (fun q => decide (q.1 ≠ nodeID)) =
            first_occurrences ((receptors.zip donors).filter
              (fun p => !decide (p.1 ∈ nodeID :: seenIDs))) := by
          rw [first_occurrences_filter (fun i => decide (i ≠ nodeID)), List.filter_filter]
          congr 2
          funext x
          simp [List.mem_cons, not_or, and_comm]
        rw [populate_loop]
        simp only [hseen, if_false, List.zip_cons_cons, List.filter_cons, decide_False,
          Bool.not_false, if_true, first_occurrences, hfilter]
        by_cases hv : bulk.is_valid (bulk.get_entity .ELEM_RANK donorID) = true
        · have hdv : donor_valid bulk (nodeID, donorID) = true := hv
          simp only [hv, Bool.not_true, Bool.false_eq_true, if_false, ih, List.takeWhile_cons,
            hdv, if_true, List.map_cons, List.all_cons, Bool.true_and, List.append_assoc,
            List.singleton_append, fringe_record]
        · have hv2 : bulk.is_valid (bulk.get_entity .ELEM_RANK donorID) = false := by
            simpa using hv
          have hdv : donor_valid bulk (nodeID, donorID) = false := hv2
          simp [hv2, hdv]

/-- The function `populate_overset_info` in closed form when the assertion of line 385 does
not fire. -/
theorem populate_overset_info_eq (ndebug : Bool) (s : TiogaSTKIface)
    (h : ndebug = true ∨ s.oversetManager_.oversetInfoVec_ = []) :
    populate_overset_info ndebug s =
      ({ s with oversetManager_ := { s.oversetManager_ with
          oversetInfoVec_ := s.oversetManager_.oversetInfoVec_ ++
            ((first_occurrences (s.receptorIDs_.zip s.donorIDs_)).takeWhile
              (donor_valid s.bulk_)).map (fringe_record s.bulk_) } },
       if (first_occurrences (s.receptorIDs_.zip s.donorIDs_)).all (donor_valid s.bulk_)
       then none else some Error.invalidElement) := by
  have hc : (!ndebug && s.oversetManager_.oversetInfoVec_.length != 0) = false := by
    rcases h with h | h
    · simp [h]
    · simp [h]
  have hf : (s.receptorIDs_.zip s.donorIDs_).filter (fun p => !decide (p.1 ∈ [])) =
      s.receptorIDs_.zip s.donorIDs_ := by simp
  unfold populate_overset_info
  simp only [hc, Bool.false_eq_true, if_false, populate_loop_eq, hf]

theorem record_pairs_fringe_record (bulk : BulkData) (l : List (EntityId × EntityId)) :
    record_pairs (l.map (fringe_record bulk)) = l := by
  induction l with
  | nil => rfl
  | cons a l ih =>
    simp only [record_pairs, List.map_cons, List.map_map] at ih ⊢
    rw [ih]
    rfl

/-! ## The claims -/

/-- C1: for every coordinator state, resetting twice gives the same state as
resetting once, and after a reset the ghost-request list, the donor-id list, the
receptor-id list and the fringe record list are empty. -/
theorem reset_data_structures_idempotent (s : TiogaSTKIface) :
    reset_data_structures (reset_data_structures s) = reset_data_structures s ∧
      (reset_data_structures s).elemsToGhost_ = [] ∧
      (reset_data_structures s).donorIDs_ = [] ∧
      (reset_data_structures s).receptorIDs_ = [] ∧
      (reset_data_structures s).oversetManager_.oversetInfoVec_ = [] :=
  ⟨rfl, rfl, rfl, rfl, rfl⟩

/-- C2: when `populate_overset_info` is called with a cleared fringe record list
and succeeds, the records it leaves are those of the pairs deduplicated by
receptor node id: one record for each distinct receptor node id, in order of
first occurrence, each with the donor paired with the first occurrence of its
node id. -/
theorem populate_overset_info_dedup (ndebug : Bool) (s : TiogaSTKIface)
    (hlen : s.receptorIDs_.length = s.donorIDs_.length)
    (hclear : s.oversetManager_.oversetInfoVec_ = [])
    (hok : (populate_overset_info ndebug s).2 = none) :
    record_pairs (populate_overset_info ndebug s).1.oversetManager_.oversetInfoVec_ =
        first_occurrences (s.receptorIDs_.zip s.donorIDs_) ∧
      ((populate_overset_info ndebug s).1.oversetManager_.oversetInfoVec_.map
        (fun r => r.node_.id)).Nodup ∧
      (∀ id, id ∈ (populate_overset_info ndebug s).1.oversetManager_.oversetInfoVec_.map
        (fun r => r.node_.id) ↔ id ∈ s.receptorIDs_) ∧
      ∀ r ∈ (populate_overset_info ndebug s).1.oversetManager_.oversetInfoVec_,
        (s.receptorIDs_.zip s.donorIDs_).find? (fun q => decide (q.1 = r.node_.id)) =
          some (r.node_.id, r.owningElement_.id) := by
  rw [populate_overset_info_eq ndebug s (Or.inr hclear)] at hok ⊢
  simp only at hok ⊢
  have hall : (first_occurrences (s.receptorIDs_.zip s.donorIDs_)).all (donor_valid s.bulk_)
      = true := by
    by_contra hne
    simp [hne] at hok
  have htake : (first_occurrences (s.receptorIDs_.zip s.donorIDs_)).takeWhile
      (donor_valid s.bulk_) = first_occurrences (s.receptorIDs_.zip s.donorIDs_) := by
    rw [List.takeWhile_eq_self_iff]
    simpa using hall
  have hpairs : record_pairs (s.oversetManager_.oversetInfoVec_ ++
      ((first_occurrences (s.receptorIDs_.zip s.donorIDs_)).takeWhile
        (donor_valid s.bulk_)).map (fringe_record s.bulk_)) =
      first_occurrences (s.receptorIDs_.zip s.donorIDs_) := by
    rw [hclear, htake, List.nil_append, record_pairs_fringe_record]
  have hids : (s.oversetManager_.oversetInfoVec_ ++
      ((first_occurrences (s.receptorIDs_.zip s.donorIDs_)).takeWhile
        (donor_valid s.bulk_)).map (fringe_record s.bulk_)).map (fun r => r.node_.id) =
      (first_occurrences (s.receptorIDs_.zip s.donorIDs_)).map Prod.fst := by
    rw [hclear, htake, List.nil_append, List.map_map]
    rfl
  refine ⟨hpairs, ?_, ?_, ?_⟩
  · rw [hids]
    exact first_occurrences_nodup _
  · intro id
    rw [hids, first_occurrences_keys, List.map_fst_zip _ _ (le_of_eq hlen)]
  · intro r hr
    have hmem : (r.node_.id, r.owningElement_.id) ∈
        first_occurrences (s.receptorIDs_.zip s.donorIDs_) := by
      rw [← hpairs, record_pairs]
      exact List.mem_map_of_mem _ hr
    exact first_occurrences_find _ _ hmem

/-- Witness of C2 on rank 0 of the two-rank machine with the receptor list
2, 2, 1 and the donors 10, 10, 10. -/
theorem populate_overset_info_dedup_witness :
    record_pairs (populate_overset_info true
        { demo_rank0 with receptorIDs_ := [2, 2, 1], donorIDs_ := [10, 10, 10] }
      ).1.oversetManager_.oversetInfoVec_ = [(2, 10), (1, 10)] :=
  (populate_overset_info_dedup true
    { demo_rank0 with receptorIDs_ := [2, 2, 1], donorIDs_ := [10, 10, 10] }
    rfl rfl (by decide)).1.trans (by decide)

/-- C3, as stated, fails: on rank 0 with the receptor list 2, 2, 1 and the
donors 10, 99, 10 the pair (2, 99) has a donor that is valid nowhere, yet the
call succeeds and leaves the records of (2, 10) and (1, 10): the repeated node
id is skipped before its donor is looked at. -/
theorem populate_overset_info_skips_repeated_invalid :
    (∃ p ∈ demo_repeated.receptorIDs_.zip demo_repeated.donorIDs_,
        donor_valid demo_repeated.bulk_ p = false) ∧
      (populate_overset_info false demo_repeated).2 = none ∧
      record_pairs (populate_overset_info false demo_repeated).1.oversetManager_.oversetInfoVec_
        = [(2, 10), (1, 10)] := by
  refine ⟨⟨(2, 99), by decide, by decide⟩, by decide, by decide⟩

/-- C3, amended: called with a cleared fringe record list,
`populate_overset_info` throws the invalid-element error if and only if the
donor paired with the first occurrence of some receptor node id is not a valid
local element, and otherwise it returns normally. -/
theorem populate_overset_info_fails_iff (ndebug : Bool) (s : TiogaSTKIface)
    (hclear : s.oversetManager_.oversetInfoVec_ = []) :
    ((populate_overset_info ndebug s).2 = some Error.invalidElement ↔
        ∃ p ∈ first_occurrences (s.receptorIDs_.zip s.donorIDs_),
          donor_valid s.bulk_ p = false) ∧
      ((populate_overset_info ndebug s).2 = none ↔
        ∀ p ∈ first_occurrences (s.receptorIDs_.zip s.donorIDs_),
          donor_valid s.bulk_ p = true) := by
  rw [populate_overset_info_eq ndebug s (Or.inr hclear)]
  by_cases hall : (first_occurrences (s.receptorIDs_.zip s.donorIDs_)).all (donor_valid s.bulk_)
      = true
  · simp only [hall, if_true]
    rw [List.all_eq_true] at hall
    constructor
    · constructor
      · intro h
        cases h
      · rintro ⟨p, hp, hv⟩
        rw [hall p hp] at hv
        cases hv
    · exact ⟨fun _ => hall, fun _ => trivial⟩
  · simp only [hall, if_false]
    rw [List.all_eq_true] at hall
    constructor
    · constructor
      · intro _
        by_contra hne
        apply hall
        intro p hp
        by_contra hv
        exact hne ⟨p, hp, by simpa using hv⟩
      · intro _
        rfl
    · constructor
      · intro h
        cases h
      · intro h
        exact absurd h hall

/-- Witness of amended C3 on rank 0 with the receptor list 2, 1 and the donors
10, 99: element 99 is valid nowhere and the call throws. -/
theorem populate_overset_info_fails_iff_witness :
    (populate_overset_info false
        { demo_rank0 with receptorIDs_ := [2, 1], donorIDs_ := [10, 99] }).2 =
      some Error.invalidElement :=
  (populate_overset_info_fails_iff false
    { demo_rank0 with receptorIDs_ := [2, 1], donorIDs_ := [10, 99] } rfl).1.2
    ⟨(1, 99), by decide, by decide⟩

/-- C4: whether `populate_overset_info` returns normally or throws, the fringe
record list it leaves is the list it found followed by the records it pushed,
the mesh is untouched, and the donor element of every record it pushed is valid
on the rank. -/
theorem populate_overset_info_records_valid (ndebug : Bool) (s : TiogaSTKIface) :
    (populate_overset_info ndebug s).1.bulk_ = s.bulk_ ∧
      ∃ added : List OversetInfo,
        (populate_overset_info ndebug s).1.oversetManager_.oversetInfoVec_ =
            s.oversetManager_.oversetInfoVec_ ++ added ∧
          ∀ r ∈ added, s.bulk_.is_valid r.owningElement_ = true := by
  by_cases hc : (!ndebug && s.oversetManager_.oversetInfoVec_.length != 0) = true
  · refine ⟨?_, [], ?_, ?_⟩
    · simp [populate_overset_info, hc]
    · simp [populate_overset_info, hc]
    · intro r hr
      cases hr
  · have h : ndebug = true ∨ s.oversetManager_.oversetInfoVec_ = [] := by
      cases ndebug
      · right
        simpa using hc
      · exact Or.inl rfl
    rw [populate_overset_info_eq ndebug s h]
    refine ⟨rfl, _, rfl, ?_⟩
    intro r hr
    rw [List.mem_map] at hr
    obtain ⟨p, hp, rfl⟩ := hr
    have hv : donor_valid s.bulk_ p = true := List.mem_takeWhile_imp hp
    exact hv

/-! ### update_ghosting -/

theorem ghost_counts_pos_iff (w : World) (hsum : ghost_changes_total w < two64) :
    ((ghost_counts w).1 > 0 || (ghost_counts w).2 > 0) = true ↔ ghost_changes_total w ≠ 0 := by
  have h0 : (w.map (fun _ => 0)).sum = 0 := by
    induction w with
    | nil => rfl
    | cons a w ih => simp
  have h1 : ghost_changes_total w = (w.map (fun s => s.elemsToGhost_.length)).sum := by
    simp [ghost_changes_total]
  simp only [ghost_counts, h0, Nat.zero_mod, gt_iff_lt, lt_self_iff_false, decide_False,
    Bool.or_false, decide_eq_true_eq]
  rw [← h1, Nat.mod_eq_of_lt hsum]
  exact Nat.pos_iff_ne_zero

/-- C5: provided the global count fits `size_t`, `update_ghosting` recreates the
overset ghosting on a rank (mesh modification bracket, destruction of the
previous ghosting if there is one, creation of a new one) if and only if the sum
over all ranks of the ghost additions and removals is non-zero; when the sum is
zero the rank starts no mesh modification and keeps its mesh and its ghosting
pointer. -/
theorem update_ghosting_recreates_iff (w : World) (hsum : ghost_changes_total w < two64)
    (i : Nat) (s : TiogaSTKIface) (hs : w[i]? = some s) :
    ∃ s1, (update_ghosting w)[i]? = some s1 ∧
      (ghost_changes_total w = 0 →
        s1.oversetManager_ = s.oversetManager_ ∧ s1.bulk_ = s.bulk_ ∧
          s1.log = s.log ++ unchanged_calls s.oversetManager_.oversetGhosting_) ∧
      (ghost_changes_total w ≠ 0 →
        s1.oversetManager_.oversetGhosting_ = some s.bulk_.numGhostings ∧
          s1.log = s.log ++ recreate_calls s.oversetManager_.oversetGhosting_
            s.bulk_.numGhostings s.elemsToGhost_) ∧
      (Call.modification_begin ∈ s1.log.drop s.log.length ↔ ghost_changes_total w ≠ 0) ∧
      (Call.create_ghosting s.bulk_.numGhostings ∈ s1.log.drop s.log.length ↔
        ghost_changes_total w ≠ 0) := by
  have hiff := ghost_counts_pos_iff w hsum
  by_cases ht : ghost_changes_total w = 0
  · have hc : ((ghost_counts w).1 > 0 || (ghost_counts w).2 > 0) = false := by
      rw [← Bool.not_eq_true, hiff]
      exact not_not.mpr ht
    have hlog : (communicate_coords s).log =
        s.log ++ unchanged_calls s.oversetManager_.oversetGhosting_ := by
      unfold communicate_coords unchanged_calls
      cases s.oversetManager_.oversetGhosting_ <;> simp
    have hrest : (communicate_coords s).oversetManager_ = s.oversetManager_ ∧
        (communicate_coords s).bulk_ = s.bulk_ := by
      unfold communicate_coords
      cases s.oversetManager_.oversetGhosting_ <;> simp
    refine ⟨communicate_coords s, ?_, ?_, ?_, ?_, ?_⟩
    · simp [update_ghosting, hc, hs]
    · intro _
      exact ⟨hrest.1, hrest.2, hlog⟩
    · intro h
      exact absurd ht h
    · rw [hlog, List.drop_left]
      simp only [ht, ne_eq, not_true_eq_false, iff_false]
      unfold unchanged_calls
      cases s.oversetManager_.oversetGhosting_ <;> simp
    · rw [hlog, List.drop_left]
      simp only [ht, ne_eq, not_true_eq_false, iff_false]
      unfold unchanged_calls
      cases s.oversetManager_.oversetGhosting_ <;> simp
  · have hc : ((ghost_counts w).1 > 0 || (ghost_counts w).2 > 0) = true := hiff.mpr ht
    have hlog : (communicate_coords (recreate_ghosting w s)).log =
        s.log ++ recreate_calls s.oversetManager_.oversetGhosting_
          s.bulk_.numGhostings s.elemsToGhost_ := by
      simp [communicate_coords, recreate_ghosting, recreate_calls]
    refine ⟨communicate_coords (recreate_ghosting w s), ?_, ?_, ?_, ?_, ?_⟩
    · simp [update_ghosting, hc, hs]
    · intro h
      exact absurd h ht
    · intro _
      refine ⟨?_, hlog⟩
      simp [communicate_coords, recreate_ghosting]
    · rw [hlog, List.drop_left]
      simp [ht, recreate_calls]
    · rw [hlog, List.drop_left]
      simp [ht, recreate_calls]

/-- Witness of C5 on the two-rank machine with one request pending on rank 0:
rank 1 has no request of its own and still creates the ghosting of ordinal 2. -/
theorem update_ghosting_recreates_iff_witness :
    ∃ s1, (update_ghosting demo_requesting)[1]? = some s1 ∧
      s1.oversetManager_.oversetGhosting_ = some 2 ∧
      s1.log = [Call.modification_begin, Call.create_ghosting 2, Call.change_ghosting 2 [] [],
        Call.modification_end, Call.populate_ghost_comm_procs 2,
        Call.communicate_field_data 2] := by
  obtain ⟨s1, h1, _, h3, _⟩ :=
    update_ghosting_recreates_iff demo_requesting (by decide) 1 demo_rank1 rfl
  exact ⟨s1, h1, (h3 (by decide)).1, (h3 (by decide)).2⟩

/-! ### get_receptor_info -/

/-- The loop over the gathered triples in closed form. -/
theorem reconcile_loop_eq (iproc : Nat) :
    ∀ (allEntities : List Nat) (s : TiogaSTKIface),
      reconcile_loop iproc allEntities s =
        { s with
          receptorIDs_ := s.receptorIDs_ ++
            (addressed_to iproc (to_triples allEntities)).map (fun t => t.2.1)
          donorIDs_ := s.donorIDs_ ++
            (addressed_to iproc (to_triples allEntities)).map (fun t => t.2.2)
          elemsToGhost_ := s.elemsToGhost_ ++
            ghost_requests s.bulk_ iproc (to_triples allEntities) }
  | [], s => by simp [reconcile_loop, to_triples, addressed_to, ghost_requests]
  | [_], s => by simp [reconcile_loop, to_triples, addressed_to, ghost_requests]
  | [_, _], s => by simp [reconcile_loop, to_triples, addressed_to, ghost_requests]
  | nodeProc :: nodeID :: donorID :: rest, s => by
    rw [reconcile_loop, reconcile_loop_eq iproc rest]
    by_cases hp : iproc = nodeProc
    · subst hp
      simp [to_triples, addressed_to, ghost_requests, List.filter_cons]
    · have hp2 : ¬ nodeProc = iproc := fun h => hp h.symm
      by_cases hv : s.bulk_.is_valid (s.bulk_.get_entity .ELEM_RANK donorID) = true
      · by_cases ho : s.bulk_.parallel_owner_rank (s.bulk_.get_entity .ELEM_RANK donorID)
            = iproc
        · simp [to_triples, addressed_to, ghost_requests, List.filter_cons, hp, hp2, hv, ho]
        · simp [to_triples, addressed_to, ghost_requests, List.filter_cons, hp, hp2, hv, ho]
      · simp [to_triples, addressed_to, ghost_requests, List.filter_cons, hp, hp2, hv]

theorem write_at_nil (pos : Nat) (data : List Nat) : write_at [] pos data = [] := by
  cases pos <;> cases data <;> rfl

theorem allgatherv_nil :
    ∀ (sends : List (List Nat)) (recvcounts displs : List Nat),
      allgatherv sends recvcounts displs [] = []
  | [], _, _ => by simp [allgatherv]
  | _ :: _, [], _ => by simp [allgatherv]
  | _ :: _, _ :: _, [] => by simp [allgatherv]
  | _ :: sends, _ :: recvcounts, _ :: displs => by
    rw [allgatherv, write_at_nil]
    exact allgatherv_nil sends recvcounts displs

theorem gather_entities_of_total_zero (nodesToReset : List (List Nat))
    (h : (nodesToReset.map List.length).sum = 0) : gather_entities nodesToReset = [] := by
  unfold gather_entities
  simp only [h, List.replicate_zero]
  exact allgatherv_nil _ _ _

/-- The function `get_receptor_info` as one function applied on every rank: the first loop,
then the loop over the gathered buffer (empty when no rank reported a
disagreement). -/
theorem get_receptor_info_eq (w : World) :
    get_receptor_info w =
      w.map (fun s => reconcile_loop s.bulk_.parallel_rank
        (gather_entities (w.map (fun t => (get_receptor_info_local t).2)))
        (get_receptor_info_local s).1) := by
  unfold get_receptor_info
  simp only [List.map_map]
  split
  · rename_i h
    have h0 : ((w.map (fun t => (get_receptor_info_local t).2)).map List.length).sum = 0 := by
      simp only [List.map_map]
      have h1 : (List.map ((fun p => p.2.length) ∘ get_receptor_info_local) w).sum = 0 := by
        omega
      exact h1
    rw [gather_entities_of_total_zero _ h0]
    apply List.map_congr_left
    intro s _
    simp [reconcile_loop]
  · apply List.map_congr_left
    intro s _
    rfl

/-- C7, as stated, fails: on the two-rank machine where rank 0 finds element 10
as donor of the two nodes 2 and 4 owned by rank 1, `get_receptor_info` puts the
request (element 10, rank 1) twice in the ghost request list of rank 0. -/
theorem get_receptor_info_repeats_request :
    (get_receptor_info demo_two_fringes).map (fun s => s.elemsToGhost_) =
        [[(⟨.ELEM_RANK, 10⟩, 1), (⟨.ELEM_RANK, 10⟩, 1)], []] ∧
      ¬ ([((⟨.ELEM_RANK, 10⟩ : Entity), 1), (⟨.ELEM_RANK, 10⟩, 1)] : List EntityProc).Nodup := by
  constructor
  · decide
  · decide

/-- C7, amended: with the gathered buffer held fixed, the loop over the gathered
triples appends to the ghost request list, in gather order and once per triple,
the pair (donor element, target rank) of every triple whose donor element is
valid on the local rank and owned by it and whose target rank is not the local
rank, and nothing else; the mesh is left as it was.  So `get_receptor_info`
adds on every rank the requests of the triples gathered from all ranks. -/
theorem reconcile_loop_ghost_requests (iproc : Nat) (allEntities : List Nat)
    (s : TiogaSTKIface) (w : World) :
    (reconcile_loop iproc allEntities s).elemsToGhost_ =
        s.elemsToGhost_ ++ ghost_requests s.bulk_ iproc (to_triples allEntities) ∧
      (reconcile_loop iproc allEntities s).bulk_ = s.bulk_ ∧
      (∀ ep : EntityProc, ep ∈ ghost_requests s.bulk_ iproc (to_triples allEntities) ↔
        ∃ t ∈ to_triples allEntities, ep = (s.bulk_.get_entity .ELEM_RANK t.2.2, t.1) ∧
          s.bulk_.is_valid ep.1 = true ∧ s.bulk_.parallel_owner_rank ep.1 = iproc ∧
          ep.2 ≠ iproc) ∧
      (get_receptor_info w).map (fun r => r.elemsToGhost_) =
        w.map (fun r => r.elemsToGhost_ ++ ghost_requests r.bulk_ r.bulk_.parallel_rank
          (to_triples (gather_entities (w.map (fun t => (get_receptor_info_local t).2))))) := by
  refine ⟨?_, ?_, ?_, ?_⟩
  · rw [reconcile_loop_eq]
  · rw [reconcile_loop_eq]
  · intro ep
    simp only [ghost_requests, List.mem_map, List.mem_filter, Bool.and_eq_true,
      decide_eq_true_eq]
    constructor
    · rintro ⟨t, ⟨ht, ⟨hv, ho⟩, hne⟩, rfl⟩
      exact ⟨t, ht, rfl, hv, ho, hne⟩
    · rintro ⟨t, ht, rfl, hv, ho, hne⟩
      exact ⟨t, ⟨ht, ⟨hv, ho⟩, hne⟩, rfl⟩
  · rw [get_receptor_info_eq, List.map_map]
    apply List.map_congr_left
    intro r _
    simp only [Function.comp_apply, reconcile_loop_eq]
    rfl

/-! ### execute and post_connectivity_work -/

theorem populate_overset_info_error (ndebug : Bool) (s : TiogaSTKIface) :
    (populate_overset_info ndebug s).2 ≠ some Error.unsupportedConfiguration := by
  unfold populate_overset_info
  split
  · simp
  · simp only [populate_loop_eq]
    split <;> simp

/-- What the loop over the blocks leaves alone. -/
theorem blocks_loop_frame (isDecoupled : Bool) :
    ∀ (tbs : List TiogaBlock) (k : Nat) (s : TiogaSTKIface),
      (blocks_loop isDecoupled tbs k s).donorIDs_ = s.donorIDs_ ∧
        (blocks_loop isDecoupled tbs k s).receptorIDs_ = s.receptorIDs_ ∧
        (blocks_loop isDecoupled tbs k s).oversetManager_ = s.oversetManager_ ∧
        (blocks_loop isDecoupled tbs k s).bulk_ = s.bulk_ ∧
        (blocks_loop isDecoupled tbs k s).blocks_ = s.blocks_ ∧
        (blocks_loop isDecoupled tbs k s).tg_ = s.tg_ ∧
        (isDecoupled = true →
          (blocks_loop isDecoupled tbs k s).elemsToGhost_ = s.elemsToGhost_) := by
  intro tbs
  induction tbs with
  | nil => intro k s; simp [blocks_loop]
  | cons tb tbs ih =>
    intro k s
    rw [blocks_loop]
    cases isDecoupled
    · obtain ⟨h1, h2, h3, h4, h5, h6, _⟩ := ih (k + 1)
        { s with
          iblank := tb.update_iblanks (s.tg_.iblank k) s.iblank
          log := s.log ++ [Call.update_iblanks tb.meshtag_, Call.update_iblank_cell tb.meshtag_]
          elemsToGhost_ := TiogaBlock.get_donor_info s.bulk_ (s.tg_.donors k) s.elemsToGhost_ }
      simp only [Bool.not_false, if_true]
      exact ⟨h1, h2, h3, h4, h5, h6, fun h => by cases h⟩
    · obtain ⟨h1, h2, h3, h4, h5, h6, h7⟩ := ih (k + 1)
        { s with
          iblank := tb.update_iblanks (s.tg_.iblank k) s.iblank
          log := s.log ++ [Call.update_iblanks tb.meshtag_, Call.update_iblank_cell tb.meshtag_] }
      simp only [Bool.not_true, Bool.false_eq_true, if_false]
      exact ⟨h1, h2, h3, h4, h5, h6, fun _ => h7 rfl⟩

theorem blocks_loop_donorIDs (d : Bool) (tbs : List TiogaBlock) (k : Nat) (s : TiogaSTKIface) :
    (blocks_loop d tbs k s).donorIDs_ = s.donorIDs_ := (blocks_loop_frame d tbs k s).1

theorem blocks_loop_receptorIDs (d : Bool) (tbs : List TiogaBlock) (k : Nat)
    (s : TiogaSTKIface) :
    (blocks_loop d tbs k s).receptorIDs_ = s.receptorIDs_ := (blocks_loop_frame d tbs k s).2.1

theorem blocks_loop_oversetManager (d : Bool) (tbs : List TiogaBlock) (k : Nat)
    (s : TiogaSTKIface) :
    (blocks_loop d tbs k s).oversetManager_ = s.oversetManager_ :=
  (blocks_loop_frame d tbs k s).2.2.1

theorem blocks_loop_bulk (d : Bool) (tbs : List TiogaBlock) (k : Nat) (s : TiogaSTKIface) :
    (blocks_loop d tbs k s).bulk_ = s.bulk_ := (blocks_loop_frame d tbs k s).2.2.2.1

theorem blocks_loop_blocks (d : Bool) (tbs : List TiogaBlock) (k : Nat) (s : TiogaSTKIface) :
    (blocks_loop d tbs k s).blocks_ = s.blocks_ := (blocks_loop_frame d tbs k s).2.2.2.2.1

theorem blocks_loop_tg (d : Bool) (tbs : List TiogaBlock) (k : Nat) (s : TiogaSTKIface) :
    (blocks_loop d tbs k s).tg_ = s.tg_ := (blocks_loop_frame d tbs k s).2.2.2.2.2.1

theorem blocks_loop_decoupled_elemsToGhost (tbs : List TiogaBlock) (k : Nat)
    (s : TiogaSTKIface) :
    (blocks_loop true tbs k s).elemsToGhost_ = s.elemsToGhost_ :=
  (blocks_loop_frame true tbs k s).2.2.2.2.2.2 rfl

/-- C8: on a GPU build `execute` throws the unsupported-configuration error on
every rank when the solve is not decoupled, leaving the machine exactly as it
was (no reset, no registration, no search), and does not throw it on any rank
when the solve is decoupled; on a build without GPU no rank ever throws it. -/
theorem execute_unsupported_configuration (ndebug : Bool) (search : Nat → TiogaOut)
    (w : World) :
    execute true ndebug search false w =
        (w, w.map (fun _ => some Error.unsupportedConfiguration)) ∧
      (execute true ndebug search true w).2 = w.map (fun _ => none) ∧
      ∀ isDecoupled : Bool,
        ∀ e ∈ (execute false ndebug search isDecoupled w).2,
          e ≠ some Error.unsupportedConfiguration := by
  refine ⟨rfl, ?_, ?_⟩
  · simp [execute, post_connectivity_work, copy_owned_to_shared, Function.comp_def]
  · intro isDecoupled
    cases isDecoupled
    · simp only [execute, post_connectivity_work, Bool.false_and, Bool.false_eq_true, if_false,
        Bool.not_false, if_true, List.map_map, List.mem_map, Function.comp_apply]
      rintro e ⟨s, _, rfl⟩
      exact populate_overset_info_error ndebug s
    · simp [execute, post_connectivity_work, copy_owned_to_shared, Function.comp_def]

/-- C9: in decoupled mode `execute` leaves, on every rank, the ghost-request
list, the donor-id list, the receptor-id list and the fringe record list empty,
keeps the ghosting pointer and the mesh (hence the ghost region) of before the
call, and throws nothing. -/
theorem execute_decoupled_frame (gpu ndebug : Bool) (search : Nat → TiogaOut) (w : World) :
    (execute gpu ndebug search true w).1.map (fun s => s.elemsToGhost_) = w.map (fun _ => []) ∧
      (execute gpu ndebug search true w).1.map (fun s => s.donorIDs_) = w.map (fun _ => []) ∧
      (execute gpu ndebug search true w).1.map (fun s => s.receptorIDs_) =
        w.map (fun _ => []) ∧
      (execute gpu ndebug search true w).1.map (fun s => s.oversetManager_.oversetInfoVec_) =
        w.map (fun _ => []) ∧
      (execute gpu ndebug search true w).1.map (fun s => s.oversetManager_.oversetGhosting_) =
        w.map (fun s => s.oversetManager_.oversetGhosting_) ∧
      (execute gpu ndebug search true w).1.map (fun s => s.bulk_) = w.map (fun s => s.bulk_) ∧
      (execute gpu ndebug search true w).2 = w.map (fun _ => none) := by
  simp only [execute, Bool.not_true, Bool.and_false, Bool.false_eq_true, if_false,
    post_connectivity_work, copy_owned_to_shared, List.map_map]
  refine ⟨?_, ?_, ?_, ?_, ?_, ?_, ?_⟩
  · apply List.map_congr_left
    intro s _
    simp only [Function.comp_apply, post_connectivity_sync, receive_owned, blocks_loop_decoupled_elemsToGhost]
    rfl
  · apply List.map_congr_left
    intro s _
    simp only [Function.comp_apply, post_connectivity_sync, receive_owned, blocks_loop_donorIDs]
    rfl
  · apply List.map_congr_left
    intro s _
    simp only [Function.comp_apply, post_connectivity_sync, receive_owned, blocks_loop_receptorIDs]
    rfl
  · apply List.map_congr_left
    intro s _
    simp only [Function.comp_apply, post_connectivity_sync, receive_owned, blocks_loop_oversetManager]
    rfl
  · apply List.map_congr_left
    intro s _
    simp only [Function.comp_apply, post_connectivity_sync, receive_owned, blocks_loop_oversetManager]
    rfl
  · apply List.map_congr_left
    intro s _
    simp only [Function.comp_apply, post_connectivity_sync, receive_owned, blocks_loop_bulk]
    rfl
  · simp [Function.comp_def]

/-! ### Closed forms of the collective steps -/

/-- The function `update_ghosting` as one function applied on every rank. -/
theorem update_ghosting_eq (w : World) :
    update_ghosting w =
      w.map (fun s => communicate_coords
        (if ((ghost_counts w).1 > 0 || (ghost_counts w).2 > 0) = true
          then recreate_ghosting w s else s)) := by
  unfold update_ghosting
  by_cases h : ((ghost_counts w).1 > 0 || (ghost_counts w).2 > 0) = true
  · simp only [h, if_true, List.map_map]
    rfl
  · simp only [h, Bool.false_eq_true, if_false]

theorem communicate_coords_frame (s : TiogaSTKIface) :
    (communicate_coords s).iblank = s.iblank ∧ (communicate_coords s).bulk_ = s.bulk_ ∧
      (communicate_coords s).elemsToGhost_ = s.elemsToGhost_ ∧
      (communicate_coords s).oversetManager_ = s.oversetManager_ ∧
      (communicate_coords s).blocks_ = s.blocks_ := by
  unfold communicate_coords
  cases s.oversetManager_.oversetGhosting_ <;> simp

/-- What the steps after the owned-to-shared copy leave alone on a rank: the
iblank field and the ownership and sharing data of the mesh. -/
theorem after_copy_frame (ndebug : Bool) (w : World) :
    ∃ f : TiogaSTKIface → TiogaSTKIface,
      (update_ghosting (get_receptor_info w)).map
          (fun s => (populate_overset_info ndebug s).1) = w.map f ∧
        ∀ s, (f s).iblank = s.iblank ∧
          (f s).bulk_.parallel_rank = s.bulk_.parallel_rank ∧
          (f s).bulk_.parallel_owner_rank = s.bulk_.parallel_owner_rank ∧
          (f s).bulk_.comm_shared_procs = s.bulk_.comm_shared_procs := by
  refine ⟨fun s => (populate_overset_info ndebug (communicate_coords
      (if ((ghost_counts (get_receptor_info w)).1 > 0 ||
            (ghost_counts (get_receptor_info w)).2 > 0) = true
        then recreate_ghosting (get_receptor_info w)
          (reconcile_loop s.bulk_.parallel_rank
            (gather_entities (w.map (fun t => (get_receptor_info_local t).2)))
            (get_receptor_info_local s).1)
        else reconcile_loop s.bulk_.parallel_rank
            (gather_entities (w.map (fun t => (get_receptor_info_local t).2)))
            (get_receptor_info_local s).1))).1, ?_, ?_⟩
  · rw [update_ghosting_eq]
    conv_lhs => rw [get_receptor_info_eq w]
    simp only [List.map_map, Function.comp_def]
    rw [← get_receptor_info_eq w]
  · intro s
    have hp : ∀ t : TiogaSTKIface, (populate_overset_info ndebug t).1.iblank = t.iblank ∧
        (populate_overset_info ndebug t).1.bulk_ = t.bulk_ := by
      intro t
      unfold populate_overset_info
      split <;> simp
    have hr : ∀ t : TiogaSTKIface, (recreate_ghosting (get_receptor_info w) t).iblank = t.iblank ∧
        (recreate_ghosting (get_receptor_info w) t).bulk_.parallel_rank = t.bulk_.parallel_rank ∧
        (recreate_ghosting (get_receptor_info w) t).bulk_.parallel_owner_rank =
          t.bulk_.parallel_owner_rank ∧
        (recreate_ghosting (get_receptor_info w) t).bulk_.comm_shared_procs =
          t.bulk_.comm_shared_procs := by
      intro t
      simp [recreate_ghosting]
    have hl : ∀ all : List Nat,
        (reconcile_loop s.bulk_.parallel_rank all (get_receptor_info_local s).1).iblank
          = s.iblank ∧
        (reconcile_loop s.bulk_.parallel_rank all (get_receptor_info_local s).1).bulk_
          = s.bulk_ := by
      intro all
      rw [reconcile_loop_eq]
      simp [get_receptor_info_local]
    simp only [(hp _).1, (hp _).2, (communicate_coords_frame _).1, (communicate_coords_frame _).2.1]
    split
    · simp only [(hr _).1, (hr _).2.1, (hr _).2.2.1, (hr _).2.2.2, (hl _).1, (hl _).2]
      refine ⟨?_, ?_, ?_, ?_⟩ <;> first | rfl | trivial
    · simp only [(hl _).1, (hl _).2]
      refine ⟨?_, ?_, ?_, ?_⟩ <;> first | rfl | trivial

/-- The machine after a non-decoupled `post_connectivity_work`, rank by rank. -/
theorem post_connectivity_work_coupled (ndebug : Bool) (w : World) :
    ∃ f : TiogaSTKIface → TiogaSTKIface,
      (post_connectivity_work ndebug false w).1 =
          w.map (fun s => f (post_connectivity_sync
            (receive_owned (w.map (fun t => blocks_loop false t.blocks_ 0 t))
              (blocks_loop false s.blocks_ 0 s)))) ∧
        ∀ s, (f s).iblank = s.iblank ∧
          (f s).bulk_.parallel_rank = s.bulk_.parallel_rank ∧
          (f s).bulk_.parallel_owner_rank = s.bulk_.parallel_owner_rank ∧
          (f s).bulk_.comm_shared_procs = s.bulk_.comm_shared_procs := by
  obtain ⟨f, hf, hframe⟩ := after_copy_frame ndebug
    ((copy_owned_to_shared (w.map (fun t => blocks_loop false t.blocks_ 0 t))).map
      post_connectivity_sync)
  refine ⟨f, ?_, hframe⟩
  have hf2 : ∀ X : World, List.map Prod.fst (List.map (populate_overset_info ndebug) X) =
      List.map (fun s => (populate_overset_info ndebug s).1) X := by
    intro X
    rw [List.map_map]
    rfl
  simp only [post_connectivity_work, Bool.not_false, if_true]
  rw [hf2, hf]
  simp only [copy_owned_to_shared, List.map_map, Function.comp_def]

/-- C10: on a machine whose ranks are numbered by position and agree on who owns
each entity, after the non-decoupled post-connectivity step every rank holding a
shared node has, for that node, the iblank value held by the rank owning it. -/
theorem post_connectivity_work_iblank_consistent (ndebug : Bool) (w : World)
    (ownr : Entity → Nat)
    (hrank : ∀ (i : Nat) (s : TiogaSTKIface), w[i]? = some s → s.bulk_.parallel_rank = i)
    (hown : ∀ s ∈ w, s.bulk_.parallel_owner_rank = ownr)
    (i : Nat) (si so : TiogaSTKIface) (n : EntityId)
    (hi : (post_connectivity_work ndebug false w).1[i]? = some si)
    (hshared : si.bulk_.comm_shared_procs ⟨.NODE_RANK, n⟩ ≠ [])
    (ho : (post_connectivity_work ndebug false w).1[ownr ⟨.NODE_RANK, n⟩]? = some so) :
    si.iblank n = so.iblank n := by
  obtain ⟨f, hf, hframe⟩ := post_connectivity_work_coupled ndebug w
  rw [hf, List.getElem?_map] at hi ho
  obtain ⟨s, hs, rfl⟩ := Option.map_eq_some'.mp hi
  obtain ⟨t, ht, rfl⟩ := Option.map_eq_some'.mp ho
  have hsr := hrank i s hs
  have htr := hrank _ t ht
  have hso := hown s (List.mem_iff_getElem?.mpr ⟨_, hs⟩)
  have hto := hown t (List.mem_iff_getElem?.mpr ⟨_, ht⟩)
  rw [(hframe _).2.2.2] at hshared
  rw [(hframe _).1, (hframe _).1]
  simp only [post_connectivity_sync, receive_owned, blocks_loop_bulk, BulkData.owned,
    BulkData.get_entity, hso, hto, hsr, htr, decide_True, Bool.true_or, if_true] at hshared ⊢
  by_cases hio : ownr ⟨.NODE_RANK, n⟩ = i
  · subst hio
    rw [hs] at ht
    cases ht
    simp
  · have hne : s.bulk_.comm_shared_procs ⟨.NODE_RANK, n⟩ ≠ [] := hshared
    simp only [hio, decide_False, Bool.false_or, List.isEmpty_iff, hne, if_false,
      List.getElem?_map, ht, Option.map_some']

theorem demo_searched_rank (i : Nat) (s : TiogaSTKIface) (h : demo_searched[i]? = some s) :
    s.bulk_.parallel_rank = i := by
  match i, h with
  | 0, h =>
    simp only [demo_searched, List.getElem?_cons_zero, Option.some.injEq] at h
    subst h
    rfl
  | 1, h =>
    simp only [demo_searched, List.getElem?_cons_succ, List.getElem?_cons_zero,
      Option.some.injEq] at h
    subst h
    rfl
  | k + 2, h => simp [demo_searched] at h

theorem demo_searched_owner (s : TiogaSTKIface) (h : s ∈ demo_searched) :
    s.bulk_.parallel_owner_rank = demo_owner := by
  simp only [demo_searched, List.mem_cons, List.mem_singleton, List.not_mem_nil, or_false] at h
  rcases h with rfl | rfl <;> rfl

/-- Witness of C10 on the two-rank machine: node 2 is shared, rank 1 does not
own it and the search marked it fringe there; after the step rank 1 holds the
value of the owning rank 0. -/
theorem post_connectivity_work_iblank_consistent_witness :
    ((post_connectivity_work false false demo_searched).1.get ⟨1, by decide⟩).iblank 2 =
      ((post_connectivity_work false false demo_searched).1.get ⟨0, by decide⟩).iblank 2 :=
  post_connectivity_work_iblank_consistent false demo_searched demo_owner
    demo_searched_rank demo_searched_owner 1 _ _ 2
    (List.getElem?_eq_getElem _) (by decide) (List.getElem?_eq_getElem _)

/-! ### Two consecutive cycles -/

theorem execute_coupled_eq (ndebug : Bool) (search : Nat → TiogaOut) (w : World) :
    (execute false ndebug search false w).1 =
      (update_ghosting (cycle_until_ghosting search w)).map
        (fun s => (populate_overset_info ndebug s).1) := by
  simp only [execute, post_connectivity_work, cycle_until_ghosting, Bool.false_and,
    Bool.false_eq_true, if_false, Bool.not_false, if_true, List.map_map]
  rfl

theorem prepare_frame (search : Nat → TiogaOut) (s : TiogaSTKIface) :
    (prepare search s).bulk_ = s.bulk_ ∧ (prepare search s).blocks_ = s.blocks_ ∧
      (prepare search s).tg_ = search s.bulk_.parallel_rank ∧
      (prepare search s).donorIDs_ = [] ∧ (prepare search s).receptorIDs_ = [] ∧
      (prepare search s).oversetManager_ = s.oversetManager_.reset_data_structures := by
  unfold prepare
  simp only [blocks_loop_bulk, blocks_loop_blocks, blocks_loop_tg, blocks_loop_donorIDs,
    blocks_loop_receptorIDs, blocks_loop_oversetManager]
  exact ⟨rfl, rfl, rfl, rfl, rfl, rfl⟩

/-- The requests the loop over the blocks collects depend on the mesh only
through the ownership of the elements. -/
theorem blocks_loop_elemsToGhost_congr :
    ∀ (tbs : List TiogaBlock) (k : Nat) (s t : TiogaSTKIface),
      s.bulk_.parallel_owner_rank = t.bulk_.parallel_owner_rank → s.tg_ = t.tg_ →
      s.elemsToGhost_ = t.elemsToGhost_ →
      (blocks_loop false tbs k s).elemsToGhost_ = (blocks_loop false tbs k t).elemsToGhost_ := by
  intro tbs
  induction tbs with
  | nil => intro k s t _ _ h; simpa [blocks_loop] using h
  | cons tb tbs ih =>
    intro k s t ho htg he
    rw [blocks_loop, blocks_loop]
    apply ih
    · exact ho
    · exact htg
    · simp only [Bool.not_false, if_true, TiogaBlock.get_donor_info, BulkData.get_entity, ho,
        htg, he]

theorem prepare_elemsToGhost_congr (search : Nat → TiogaOut) (s t : TiogaSTKIface)
    (ho : s.bulk_.parallel_owner_rank = t.bulk_.parallel_owner_rank)
    (hr : s.bulk_.parallel_rank = t.bulk_.parallel_rank) (hb : s.blocks_ = t.blocks_) :
    (prepare search s).elemsToGhost_ = (prepare search t).elemsToGhost_ := by
  unfold prepare
  have hb2 : (register_mesh s).blocks_ = (register_mesh t).blocks_ := hb
  have hr2 : (register_mesh s).bulk_.parallel_rank = (register_mesh t).bulk_.parallel_rank := hr
  rw [hb2, hr2]
  apply blocks_loop_elemsToGhost_congr
  · exact ho
  · rfl
  · rfl

/-- The iblank update of a block changes the field node by node: the new value
at a node is either a value written by the block or the old value there. -/
theorem update_iblanks_pointwise (tb : TiogaBlock) (ib : List Int) :
    ∃ upd : EntityId → Option Int, ∀ (f : EntityId → Int) (n : EntityId),
      tb.update_iblanks ib f n = (upd n).getD (f n) := by
  unfold TiogaBlock.update_iblanks
  generalize tb.node_id_map.zip ib = l
  induction l with
  | nil => exact ⟨fun _ => none, fun f n => rfl⟩
  | cons a l ih =>
    obtain ⟨upd, hupd⟩ := ih
    refine ⟨fun n => match upd n with
      | some v => some v
      | none => if n = a.1 then some a.2 else none, ?_⟩
    intro f n
    rw [List.foldl_cons, hupd]
    cases hu : upd n with
    | some v => simp only [hu, Option.getD_some]
    | none =>
      by_cases hn : n = a.1
      · subst hn
        simp only [hu, if_true, Option.getD_none, Option.getD_some, Function.update_same]
      · simp only [hu, hn, if_false, Option.getD_none, ne_eq, not_false_eq_true,
          Function.update_noteq]

theorem blocks_loop_iblank_pointwise (d : Bool) (tg : TiogaOut) :
    ∀ (tbs : List TiogaBlock) (k : Nat),
      ∃ upd : EntityId → Option Int, ∀ (s : TiogaSTKIface), s.tg_ = tg → ∀ n : EntityId,
        (blocks_loop d tbs k s).iblank n = (upd n).getD (s.iblank n) := by
  intro tbs
  induction tbs with
  | nil => intro k; exact ⟨fun _ => none, fun s _ n => rfl⟩
  | cons tb tbs ih =>
    intro k
    obtain ⟨upd, hupd⟩ := ih (k + 1)
    obtain ⟨upd1, hupd1⟩ := update_iblanks_pointwise tb (tg.iblank k)
    refine ⟨fun n => match upd n with
      | some v => some v
      | none => upd1 n, ?_⟩
    intro s hs n
    rw [blocks_loop, hupd _ (by cases d <;> exact hs)]
    have hi : ∀ x : TiogaSTKIface, x.iblank = tb.update_iblanks (s.tg_.iblank k) s.iblank →
        (upd n).getD (x.iblank n) = (match upd n with
          | some v => some v
          | none => upd1 n).getD (s.iblank n) := by
      intro x hx
      rw [hx, hs, hupd1]
      cases upd n <;> rfl
    cases d
    · exact hi _ rfl
    · exact hi _ rfl

/-- The first loop of `get_receptor_info` uses the mesh only through the rank
number, the ownership and the sharing ranks. -/
theorem receptor_loop_congr (b c : BulkData) (blocks : List TiogaBlock) (iblank : EntityId → Int)
    (ho : b.parallel_owner_rank = c.parallel_owner_rank)
    (hr : b.parallel_rank = c.parallel_rank)
    (hs : b.comm_shared_procs = c.comm_shared_procs) :
    ∀ (receptors : List Int) (acc : ReceptorScan),
      receptor_loop b blocks iblank receptors acc = receptor_loop c blocks iblank receptors acc
  | [], acc => by simp [receptor_loop]
  | [_], acc => by simp [receptor_loop]
  | [_, _], acc => by simp [receptor_loop]
  | nid :: tag :: donor :: rest, acc => by
    rw [receptor_loop, receptor_loop]
    simp only [BulkData.owned, BulkData.get_entity, ho, hr, hs]
    exact receptor_loop_congr b c blocks iblank ho hr hs rest _

theorem synced_frame (search : Nat → TiogaOut) (w : World) (s : TiogaSTKIface) :
    (synced search w s).bulk_ = s.bulk_ ∧ (synced search w s).blocks_ = s.blocks_ ∧
      (synced search w s).tg_ = search s.bulk_.parallel_rank ∧
      (synced search w s).donorIDs_ = [] ∧ (synced search w s).receptorIDs_ = [] ∧
      (synced search w s).elemsToGhost_ = (prepare search s).elemsToGhost_ ∧
      (synced search w s).oversetManager_ = s.oversetManager_.reset_data_structures := by
  obtain ⟨h1, h2, h3, h4, h5, h6⟩ := prepare_frame search s
  simp only [synced, post_connectivity_sync, receive_owned, h1, h2, h3, h4, h5, h6]
  exact ⟨trivial, trivial, trivial, trivial, trivial, trivial, trivial⟩

/-- The machine at the call of `update_ghosting`, rank by rank. -/
theorem cycle_until_ghosting_eq (search : Nat → TiogaOut) (w : World) :
    cycle_until_ghosting search w =
      w.map (fun s => reconcile_loop s.bulk_.parallel_rank
        (gather_entities (w.map (fun t => (get_receptor_info_local (synced search w t)).2)))
        (get_receptor_info_local (synced search w s)).1) := by
  unfold cycle_until_ghosting
  rw [get_receptor_info_eq]
  simp only [copy_owned_to_shared, List.map_map, Function.comp_def]
  apply List.map_congr_left
  intro s _
  have h := (synced_frame search w s).1
  unfold synced at h ⊢
  rw [h]

theorem populate_overset_info_frame (ndebug : Bool) (t : TiogaSTKIface) :
    (populate_overset_info ndebug t).1.bulk_ = t.bulk_ ∧
      (populate_overset_info ndebug t).1.iblank = t.iblank ∧
      (populate_overset_info ndebug t).1.elemsToGhost_ = t.elemsToGhost_ ∧
      (populate_overset_info ndebug t).1.blocks_ = t.blocks_ ∧
      (populate_overset_info ndebug t).1.oversetManager_.oversetGhosting_ =
        t.oversetManager_.oversetGhosting_ := by
  unfold populate_overset_info
  split <;> simp

/-- The state a rank is left in by the gather and reconcile steps. -/
theorem reconciled_frame (search : Nat → TiogaOut) (w : World) (s : TiogaSTKIface)
    (all : List Nat) :
    (reconcile_loop s.bulk_.parallel_rank all
        (get_receptor_info_local (synced search w s)).1).bulk_ = s.bulk_ ∧
      (reconcile_loop s.bulk_.parallel_rank all
        (get_receptor_info_local (synced search w s)).1).blocks_ = s.blocks_ ∧
      (reconcile_loop s.bulk_.parallel_rank all
        (get_receptor_info_local (synced search w s)).1).iblank = (synced search w s).iblank ∧
      (reconcile_loop s.bulk_.parallel_rank all
        (get_receptor_info_local (synced search w s)).1).elemsToGhost_ =
          (prepare search s).elemsToGhost_ ++
            ghost_requests s.bulk_ s.bulk_.parallel_rank (to_triples all) ∧
      (reconcile_loop s.bulk_.parallel_rank all
        (get_receptor_info_local (synced search w s)).1).oversetManager_.oversetGhosting_ =
          s.oversetManager_.oversetGhosting_ := by
  obtain ⟨h1, h2, _, _, _, h6, h7⟩ := synced_frame search w s
  rw [reconcile_loop_eq]
  simp only [get_receptor_info_local, h1, h2, h6, h7]
  exact ⟨trivial, trivial, trivial, trivial, rfl⟩

/-- A non-decoupled cycle of the machine `w`, rank by rank: what it leaves of
the mesh, the iblank field, the ghost request list and the ghosting. -/
theorem execute_coupled_rankwise (ndebug : Bool) (search : Nat → TiogaOut) (w : World) :
    ∃ g : TiogaSTKIface → TiogaSTKIface,
      (execute false ndebug search false w).1 = w.map g ∧
      ∀ s : TiogaSTKIface,
        (g s).bulk_.parallel_rank = s.bulk_.parallel_rank ∧
        (g s).bulk_.parallel_owner_rank = s.bulk_.parallel_owner_rank ∧
        (g s).bulk_.comm_shared_procs = s.bulk_.comm_shared_procs ∧
        (g s).bulk_.resident = s.bulk_.resident ∧
        (g s).blocks_ = s.blocks_ ∧
        (g s).iblank = (synced search w s).iblank ∧
        (g s).elemsToGhost_ = (prepare search s).elemsToGhost_ ++
          ghost_requests s.bulk_ s.bulk_.parallel_rank (cycle_triples search w) ∧
        ((g s).bulk_.ghostRecv = s.bulk_.ghostRecv ∨
          (g s).bulk_.ghostRecv =
            ghost_received (cycle_until_ghosting search w) s.bulk_.parallel_rank) ∧
        (g s).oversetManager_.oversetGhosting_ =
          (if ((ghost_counts (cycle_until_ghosting search w)).1 > 0 ||
              (ghost_counts (cycle_until_ghosting search w)).2 > 0) = true
            then some s.bulk_.numGhostings else s.oversetManager_.oversetGhosting_) ∧
        (g s).bulk_.numGhostings =
          (if ((ghost_counts (cycle_until_ghosting search w)).1 > 0 ||
              (ghost_counts (cycle_until_ghosting search w)).2 > 0) = true
            then s.bulk_.numGhostings + 1 else s.bulk_.numGhostings) := by
  refine ⟨fun s => (populate_overset_info ndebug (communicate_coords
      (if ((ghost_counts (cycle_until_ghosting search w)).1 > 0 ||
            (ghost_counts (cycle_until_ghosting search w)).2 > 0) = true
        then recreate_ghosting (cycle_until_ghosting search w)
          (reconcile_loop s.bulk_.parallel_rank
            (gather_entities (w.map (fun t => (get_receptor_info_local (synced search w t)).2)))
            (get_receptor_info_local (synced search w s)).1)
        else reconcile_loop s.bulk_.parallel_rank
            (gather_entities (w.map (fun t => (get_receptor_info_local (synced search w t)).2)))
            (get_receptor_info_local (synced search w s)).1))).1, ?_, ?_⟩
  · rw [execute_coupled_eq, update_ghosting_eq]
    conv_lhs => rw [cycle_until_ghosting_eq search w]
    simp only [List.map_map, Function.comp_def]
    rw [← cycle_until_ghosting_eq search w]
  · intro s
    obtain ⟨r1, r2, r3, r4, r5⟩ := reconciled_frame search w s
      (gather_entities (w.map (fun t => (get_receptor_info_local (synced search w t)).2)))
    obtain ⟨p1, p2, p3, p4, p5⟩ := populate_overset_info_frame ndebug (communicate_coords
      (if ((ghost_counts (cycle_until_ghosting search w)).1 > 0 ||
            (ghost_counts (cycle_until_ghosting search w)).2 > 0) = true
        then recreate_ghosting (cycle_until_ghosting search w)
          (reconcile_loop s.bulk_.parallel_rank
            (gather_entities (w.map (fun t => (get_receptor_info_local (synced search w t)).2)))
            (get_receptor_info_local (synced search w s)).1)
        else reconcile_loop s.bulk_.parallel_rank
            (gather_entities (w.map (fun t => (get_receptor_info_local (synced search w t)).2)))
            (get_receptor_info_local (synced search w s)).1))
    simp only [p1, p2, p3, p4, p5, (communicate_coords_frame _).1, (communicate_coords_frame _).2.1,
      (communicate_coords_frame _).2.2.1, (communicate_coords_frame _).2.2.2.1,
      (communicate_coords_frame _).2.2.2.2]
    by_cases hc : ((ghost_counts (cycle_until_ghosting search w)).1 > 0 ||
            (ghost_counts (cycle_until_ghosting search w)).2 > 0) = true
    · simp only [hc, if_true, recreate_ghosting, r1, r2, r3, r4, cycle_triples]
      refine ⟨?_, ?_, ?_, ?_, ?_, ?_, ?_, ?_, ?_, ?_⟩
      all_goals (first | rfl | trivial | exact Or.inr trivial)
    · simp only [hc, Bool.false_eq_true, if_false, r1, r2, r3, r4, r5, cycle_triples]
      refine ⟨?_, ?_, ?_, ?_, ?_, ?_, ?_, ?_, ?_, ?_⟩
      all_goals (first | rfl | trivial | exact Or.inl trivial)

/-- The iblank value a rank holds at a node when it reaches
`get_receptor_info`. -/
theorem synced_iblank_apply (search : Nat → TiogaOut) (w : World) (s : TiogaSTKIface)
    (n : EntityId) :
    (synced search w s).iblank n =
      if (s.bulk_.owned ⟨.NODE_RANK, n⟩ ||
          (s.bulk_.comm_shared_procs ⟨.NODE_RANK, n⟩).isEmpty) = true then
        (prepare search s).iblank n
      else
        match w[s.bulk_.parallel_owner_rank ⟨.NODE_RANK, n⟩]? with
        | some o => (prepare search o).iblank n
        | none => (prepare search s).iblank n := by
  have hb := (prepare_frame search s).1
  simp only [synced, post_connectivity_sync, receive_owned, hb, BulkData.get_entity,
    List.getElem?_map]
  split
  · rfl
  · cases w[s.bulk_.parallel_owner_rank ⟨.NODE_RANK, n⟩]? <;> rfl

/-- Running the loop over the blocks on a field that already holds the value the
loop produces at a node gives that value again. -/
theorem prepare_iblank_absorb (search : Nat → TiogaOut) (s t : TiogaSTKIface) (n : EntityId)
    (hb : t.blocks_ = s.blocks_) (hr : t.bulk_.parallel_rank = s.bulk_.parallel_rank)
    (hn : t.iblank n = (prepare search s).iblank n) :
    (prepare search t).iblank n = (prepare search s).iblank n := by
  obtain ⟨upd, hupd⟩ := blocks_loop_iblank_pointwise false (search s.bulk_.parallel_rank)
    s.blocks_ 0
  have hs : (prepare search s).iblank n = (upd n).getD (s.iblank n) :=
    hupd (perform_connectivity (search (register_mesh s).bulk_.parallel_rank) (register_mesh s))
      rfl n
  have ht : (prepare search t).iblank n = (upd n).getD (t.iblank n) := by
    unfold prepare
    have hb2 : (register_mesh t).blocks_ = s.blocks_ := hb
    have hr2 : (register_mesh t).bulk_.parallel_rank = s.bulk_.parallel_rank := hr
    rw [hb2, hr2]
    exact hupd (perform_connectivity (search s.bulk_.parallel_rank) (register_mesh t)) rfl n
  rw [ht, hn, hs]
  cases upd n <;> rfl

/-- An element a rank receives through the ghosting of a cycle is owned by
another rank. -/
theorem ghost_received_not_owned (search : Nat → TiogaOut) (w : World) (ownr : Entity → Nat)
    (hown : ∀ s ∈ w, s.bulk_.parallel_owner_rank = ownr) (dest : Nat) (e : Entity)
    (he : e ∈ ghost_received (cycle_until_ghosting search w) dest) : ownr e ≠ dest := by
  rw [cycle_until_ghosting_eq] at he
  simp only [ghost_received, List.mem_flatMap, List.mem_map, List.mem_filter, Bool.and_eq_true,
    decide_eq_true_eq, BulkData.owned] at he
  obtain ⟨sender, ⟨t, ht, rfl⟩, ep, ⟨_, ⟨hd, hne⟩, hso⟩, rfl⟩ := he
  rw [(reconciled_frame search w t _).1] at hso hne
  rw [hown t ht] at hso
  rw [hso, ← hd]
  exact fun h => hne h.symm

/-- On a machine whose ranks are numbered by position and agree on ownership,
running the iblank update and the owned-to-shared copy of a second cycle on the
field left by the first gives the same field. -/
theorem synced_iblank_stable (search : Nat → TiogaOut) (w : World) (ownr : Entity → Nat)
    (hrank : ∀ (i : Nat) (s : TiogaSTKIface), w[i]? = some s → s.bulk_.parallel_rank = i)
    (hown : ∀ s ∈ w, s.bulk_.parallel_owner_rank = ownr)
    (g : TiogaSTKIface → TiogaSTKIface)
    (hgr : ∀ s, (g s).bulk_.parallel_rank = s.bulk_.parallel_rank)
    (hgo : ∀ s, (g s).bulk_.parallel_owner_rank = s.bulk_.parallel_owner_rank)
    (hgs : ∀ s, (g s).bulk_.comm_shared_procs = s.bulk_.comm_shared_procs)
    (hgb : ∀ s, (g s).blocks_ = s.blocks_)
    (hgi : ∀ s, (g s).iblank = (synced search w s).iblank)
    (s : TiogaSTKIface) (hs : s ∈ w) (n : EntityId) :
    (synced search (w.map g) (g s)).iblank n = (synced search w s).iblank n := by
  rw [synced_iblank_apply search (w.map g) (g s), synced_iblank_apply search w s]
  simp only [BulkData.owned, hgr, hgo, hgs, List.getElem?_map]
  by_cases hc : (decide (s.bulk_.parallel_owner_rank ⟨.NODE_RANK, n⟩ = s.bulk_.parallel_rank) ||
      (s.bulk_.comm_shared_procs ⟨.NODE_RANK, n⟩).isEmpty) = true
  · simp only [hc, if_true]
    apply prepare_iblank_absorb search s (g s) n (hgb s) (hgr s)
    rw [hgi, synced_iblank_apply]
    simp only [BulkData.owned, hc, if_true]
  · simp only [hc, Bool.false_eq_true, if_false]
    cases hk : w[s.bulk_.parallel_owner_rank ⟨.NODE_RANK, n⟩]? with
    | none =>
      simp only [Option.map_none']
      apply prepare_iblank_absorb search s (g s) n (hgb s) (hgr s)
      rw [hgi, synced_iblank_apply]
      simp only [BulkData.owned, hc, Bool.false_eq_true, if_false, hk]
    | some t =>
      simp only [Option.map_some']
      apply prepare_iblank_absorb search t (g t) n (hgb t) (hgr t)
      have htm : t ∈ w := List.mem_iff_getElem?.mpr ⟨_, hk⟩
      have hto : t.bulk_.parallel_owner_rank ⟨.NODE_RANK, n⟩ = t.bulk_.parallel_rank := by
        rw [hrank _ t hk, hown t htm, hown s hs]
      rw [hgi, synced_iblank_apply]
      simp only [BulkData.owned, hto, decide_True, Bool.true_or, if_true]

/-- The correction triples gathered in a second cycle are those of the first. -/
theorem cycle_triples_stable (search : Nat → TiogaOut) (w : World) (ownr : Entity → Nat)
    (hrank : ∀ (i : Nat) (s : TiogaSTKIface), w[i]? = some s → s.bulk_.parallel_rank = i)
    (hown : ∀ s ∈ w, s.bulk_.parallel_owner_rank = ownr)
    (g : TiogaSTKIface → TiogaSTKIface)
    (hgr : ∀ s, (g s).bulk_.parallel_rank = s.bulk_.parallel_rank)
    (hgo : ∀ s, (g s).bulk_.parallel_owner_rank = s.bulk_.parallel_owner_rank)
    (hgs : ∀ s, (g s).bulk_.comm_shared_procs = s.bulk_.comm_shared_procs)
    (hgb : ∀ s, (g s).blocks_ = s.blocks_)
    (hgi : ∀ s, (g s).iblank = (synced search w s).iblank) :
    cycle_triples search (w.map g) = cycle_triples search w := by
  unfold cycle_triples
  rw [List.map_map]
  congr 2
  apply List.map_congr_left
  intro s hs
  obtain ⟨a1, a2, a3, a4, a5, _, _⟩ := synced_frame search (w.map g) (g s)
  obtain ⟨b1, b2, b3, b4, b5, _, _⟩ := synced_frame search w s
  have hi : (synced search (w.map g) (g s)).iblank = (synced search w s).iblank :=
    funext (synced_iblank_stable search w ownr hrank hown g hgr hgo hgs hgb hgi s hs)
  simp only [Function.comp_apply, get_receptor_info_local, a1, a2, a3, a4, a5, b1, b2, b3, b4,
    b5, hi, hgr, hgb]
  rw [receptor_loop_congr (g s).bulk_ s.bulk_ s.blocks_ _ (hgo s) (hgr s) (hgs s)]

/-- The ghost requests of a rank computed from given triples are those of the
cycle before, as long as the elements the rank received through ghosting are
not its own. -/
theorem ghost_requests_stable (b c : BulkData) (iproc : Nat)
    (triples : List (Nat × EntityId × EntityId))
    (hres : c.resident = b.resident)
    (ho : c.parallel_owner_rank = b.parallel_owner_rank)
    (hb : ∀ e ∈ b.ghostRecv, b.parallel_owner_rank e ≠ iproc)
    (hc : ∀ e ∈ c.ghostRecv, b.parallel_owner_rank e ≠ iproc) :
    ghost_requests c iproc triples = ghost_requests b iproc triples := by
  unfold ghost_requests
  simp only [BulkData.get_entity, BulkData.is_valid, hres, ho]
  congr 1
  apply List.filter_congr
  intro t _
  by_cases hown : b.parallel_owner_rank ⟨.ELEM_RANK, t.2.2⟩ = iproc
  · have h1 : (⟨.ELEM_RANK, t.2.2⟩ : Entity) ∉ b.ghostRecv := fun h => hb _ h hown
    have h2 : (⟨.ELEM_RANK, t.2.2⟩ : Entity) ∉ c.ghostRecv := fun h => hc _ h hown
    simp [h1, h2]
  · simp [hown]

theorem ghost_changes_total_congr (w v : World)
    (h : w.map (fun s => s.elemsToGhost_) = v.map (fun s => s.elemsToGhost_)) :
    ghost_changes_total w = ghost_changes_total v := by
  have hw : ∀ x : World, ghost_changes_total x =
      ((x.map (fun s => s.elemsToGhost_)).map List.length).sum := by
    intro x
    simp [ghost_changes_total, List.map_map, Function.comp_def]
  rw [hw, hw, h]

/-- The ghost request lists a cycle leaves are those `update_ghosting` saw. -/
theorem execute_coupled_elemsToGhost (ndebug : Bool) (search : Nat → TiogaOut) (w : World) :
    (execute false ndebug search false w).1.map (fun s => s.elemsToGhost_) =
      (cycle_until_ghosting search w).map (fun s => s.elemsToGhost_) := by
  rw [execute_coupled_eq, update_ghosting_eq]
  simp only [List.map_map, Function.comp_def]
  apply List.map_congr_left
  intro s _
  rw [(populate_overset_info_frame ndebug _).2.2.1, (communicate_coords_frame _).2.2.1]
  split
  · rfl
  · rfl

/-- C6, amended: on a machine whose ranks are numbered by position, agree on
ownership and hold no ghost copy of an element of their own, two consecutive
non-decoupled cycles with the same search output compute the same ghost request
lists (no net change of the ghost set); the second cycle leaves the ghosting
alone when these lists are empty on every rank, and otherwise destroys it and
creates a new one on every rank although its membership is unchanged. -/
theorem execute_twice_ghosting (ndebug : Bool) (search : Nat → TiogaOut) (w : World)
    (ownr : Entity → Nat)
    (hrank : ∀ (i : Nat) (s : TiogaSTKIface), w[i]? = some s → s.bulk_.parallel_rank = i)
    (hown : ∀ s ∈ w, s.bulk_.parallel_owner_rank = ownr)
    (hrecv : ∀ s ∈ w, ∀ e ∈ s.bulk_.ghostRecv, ownr e ≠ s.bulk_.parallel_rank)
    (hsum : ghost_changes_total (execute false ndebug search false w).1 < two64) :
    (execute false ndebug search false (execute false ndebug search false w).1).1.map
        (fun s => s.elemsToGhost_) =
      (execute false ndebug search false w).1.map (fun s => s.elemsToGhost_) ∧
    (ghost_changes_total (execute false ndebug search false w).1 = 0 →
      (execute false ndebug search false (execute false ndebug search false w).1).1.map
          (fun s => (s.oversetManager_.oversetGhosting_, s.bulk_.numGhostings)) =
        (execute false ndebug search false w).1.map
          (fun s => (s.oversetManager_.oversetGhosting_, s.bulk_.numGhostings))) ∧
    (ghost_changes_total (execute false ndebug search false w).1 ≠ 0 →
      (execute false ndebug search false (execute false ndebug search false w).1).1.map
          (fun s => (s.oversetManager_.oversetGhosting_, s.bulk_.numGhostings)) =
        (execute false ndebug search false w).1.map
          (fun s => (some s.bulk_.numGhostings, s.bulk_.numGhostings + 1))) := by
  obtain ⟨g, hg, pg⟩ := execute_coupled_rankwise ndebug search w
  obtain ⟨g2, hg2, pg2⟩ := execute_coupled_rankwise ndebug search (w.map g)
  have helems : (execute false ndebug search false (w.map g)).1.map (fun s => s.elemsToGhost_) =
      (w.map g).map (fun s => s.elemsToGhost_) := by
    rw [hg2]
    simp only [List.map_map, Function.comp_def]
    apply List.map_congr_left
    intro s hs
    obtain ⟨q1, q2, q3, q4, q5, q6, q7, q8, _, _⟩ := pg s
    rw [(pg2 (g s)).2.2.2.2.2.2.1, q7, q1]
    rw [prepare_elemsToGhost_congr search (g s) s q2 q1 q5]
    rw [cycle_triples_stable search w ownr hrank hown g (fun t => (pg t).1)
      (fun t => (pg t).2.1) (fun t => (pg t).2.2.1) (fun t => (pg t).2.2.2.2.1)
      (fun t => (pg t).2.2.2.2.2.1)]
    rw [ghost_requests_stable s.bulk_ (g s).bulk_ s.bulk_.parallel_rank _ q4 q2]
    · intro e he
      rw [hown s hs]
      exact hrecv s hs e he
    · intro e he
      rw [hown s hs]
      rcases q8 with h | h
      · rw [h] at he
        exact hrecv s hs e he
      · rw [h] at he
        exact ghost_received_not_owned search w ownr hown _ e he
  rw [hg] at hsum ⊢
  have htot : ghost_changes_total (cycle_until_ghosting search (w.map g)) =
      ghost_changes_total (w.map g) := by
    apply ghost_changes_total_congr
    rw [← execute_coupled_elemsToGhost ndebug, helems]
  have hiff := ghost_counts_pos_iff (cycle_until_ghosting search (w.map g))
    (by rw [htot]; exact hsum)
  rw [htot] at hiff
  refine ⟨helems, ?_, ?_⟩
  · intro h0
    have hc : ¬ ((ghost_counts (cycle_until_ghosting search (w.map g))).1 > 0 ||
        (ghost_counts (cycle_until_ghosting search (w.map g))).2 > 0) = true := by
      rw [hiff]
      exact not_not.mpr h0
    rw [hg2]
    simp only [List.map_map, Function.comp_def]
    apply List.map_congr_left
    intro s _
    obtain ⟨_, _, _, _, _, _, _, _, q9, q10⟩ := pg2 (g s)
    rw [q9, q10]
    simp only [hc, Bool.false_eq_true, if_false]
  · intro h0
    have hc : ((ghost_counts (cycle_until_ghosting search (w.map g))).1 > 0 ||
        (ghost_counts (cycle_until_ghosting search (w.map g))).2 > 0) = true := hiff.mpr h0
    rw [hg2]
    simp only [List.map_map, Function.comp_def]
    apply List.map_congr_left
    intro s _
    obtain ⟨_, _, _, _, _, _, _, _, q9, q10⟩ := pg2 (g s)
    rw [q9, q10]
    simp only [hc, if_true]

theorem demo_two_fringes_rank (i : Nat) (s : TiogaSTKIface)
    (h : demo_two_fringes[i]? = some s) : s.bulk_.parallel_rank = i := by
  match i, h with
  | 0, h =>
    simp only [demo_two_fringes, List.getElem?_cons_zero, Option.some.injEq] at h
    subst h
    rfl
  | 1, h =>
    simp only [demo_two_fringes, List.getElem?_cons_succ, List.getElem?_cons_zero,
      Option.some.injEq] at h
    subst h
    rfl
  | k + 2, h => simp [demo_two_fringes] at h

theorem demo_two_fringes_owner (s : TiogaSTKIface) (h : s ∈ demo_two_fringes) :
    s.bulk_.parallel_owner_rank = demo_fringe_owner := by
  simp only [demo_two_fringes, List.mem_cons, List.mem_singleton, List.not_mem_nil,
    or_false] at h
  rcases h with rfl | rfl <;> rfl

theorem demo_two_fringes_ghostRecv (s : TiogaSTKIface) (h : s ∈ demo_two_fringes) (e : Entity)
    (he : e ∈ s.bulk_.ghostRecv) : demo_fringe_owner e ≠ s.bulk_.parallel_rank := by
  simp only [demo_two_fringes, List.mem_cons, List.mem_singleton, List.not_mem_nil,
    or_false] at h
  rcases h with rfl | rfl <;> cases he

/-- C6, as stated, fails: on the second two-rank machine, two consecutive
non-decoupled cycles with the same search output leave the same ghost requests
on rank 0 (element 10 for rank 1, once per fringe node), and the second cycle
nevertheless destroys the ghosting of ordinal 2 made by the first and creates
the ghosting of ordinal 3 on both ranks. -/
theorem execute_twice_recreates_ghosting :
    (execute false false demo_fringe_search false demo_two_fringes).1.map
        (fun s => s.elemsToGhost_) =
        [[(⟨.ELEM_RANK, 10⟩, 1), (⟨.ELEM_RANK, 10⟩, 1)], []] ∧
      (execute false false demo_fringe_search false
          (execute false false demo_fringe_search false demo_two_fringes).1).1.map
        (fun s => s.elemsToGhost_) =
        [[(⟨.ELEM_RANK, 10⟩, 1), (⟨.ELEM_RANK, 10⟩, 1)], []] ∧
      (execute false false demo_fringe_search false demo_two_fringes).1.map
        (fun s => (s.oversetManager_.oversetGhosting_,
          decide (Call.destroy_ghosting 2 ∈ s.log), decide (Call.create_ghosting 3 ∈ s.log))) =
        [(some 2, false, false), (some 2, false, false)] ∧
      (execute false false demo_fringe_search false
          (execute false false demo_fringe_search false demo_two_fringes).1).1.map
        (fun s => (s.oversetManager_.oversetGhosting_,
          decide (Call.destroy_ghosting 2 ∈ s.log), decide (Call.create_ghosting 3 ∈ s.log))) =
        [(some 3, true, true), (some 3, true, true)] := by
  refine ⟨by decide, by decide, by decide, by decide⟩

/-- Witness of amended C6 on the second two-rank machine: the requests are not
empty, and the second cycle replaces the ghosting on both ranks. -/
theorem execute_twice_ghosting_witness :
    (execute false false demo_fringe_search false
        (execute false false demo_fringe_search false demo_two_fringes).1).1.map
      (fun s => (s.oversetManager_.oversetGhosting_, s.bulk_.numGhostings)) =
    (execute false false demo_fringe_search false demo_two_fringes).1.map
      (fun s => (some s.bulk_.numGhostings, s.bulk_.numGhostings + 1)) :=
  (execute_twice_ghosting false demo_fringe_search demo_two_fringes demo_fringe_owner
    demo_two_fringes_rank demo_two_fringes_owner demo_two_fringes_ghostRecv (by decide)).2.2
    (by decide)

/-! ### Field exchange -/

theorem sync_and_count_eq :
    ∀ (fields : List OversetFieldData) (s : TiogaSTKIface) (nComp : Int),
      sync_and_count fields s nComp =
        ({ s with log := s.log ++ fields.map (fun f => Call.sync_to_host f.field_) },
          nComp + component_count fields) := by
  intro fields
  induction fields with
  | nil => intro s nComp; simp [sync_and_count, component_count]
  | cons f fields ih =>
    intro s nComp
    rw [sync_and_count, ih]
    simp [component_count, add_assoc]

theorem blocks_register_solution_eq (fields : List OversetFieldData) (nComp : Int) :
    ∀ (tbs : List TiogaBlock) (s : TiogaSTKIface),
      blocks_register_solution fields nComp tbs s =
        { s with log := s.log ++
            tbs.map (fun tb => Call.register_solution tb.meshtag_ fields nComp) } := by
  intro tbs
  induction tbs with
  | nil => intro s; simp [blocks_register_solution]
  | cons tb tbs ih => intro s; rw [blocks_register_solution, ih]; simp

theorem blocks_update_solution_eq (fields : List OversetFieldData) :
    ∀ (tbs : List TiogaBlock) (s : TiogaSTKIface),
      blocks_update_solution fields tbs s =
        { s with log := s.log ++
            tbs.map (fun tb => Call.update_solution tb.meshtag_ fields) } := by
  intro tbs
  induction tbs with
  | nil => intro s; simp [blocks_update_solution]
  | cons tb tbs ih => intro s; rw [blocks_update_solution, ih]; simp

theorem modify_and_sync_eq :
    ∀ (fields : List OversetFieldData) (s : TiogaSTKIface),
      modify_and_sync fields s =
        { s with log := s.log ++
            (fields.flatMap
              (fun f => [Call.modify_on_host f.field_, Call.sync_to_device f.field_])) } := by
  intro fields
  induction fields with
  | nil => intro s; simp [modify_and_sync]
  | cons f fields ih => intro s; rw [modify_and_sync, ih]; simp

theorem blocks_register_solution_field_eq (fdata : OversetFieldData) :
    ∀ (tbs : List TiogaBlock) (s : TiogaSTKIface),
      blocks_register_solution_field fdata tbs s =
        { s with log := s.log ++
            tbs.map (fun tb => Call.register_solution_field tb.meshtag_ fdata) } := by
  intro tbs
  induction tbs with
  | nil => intro s; simp [blocks_register_solution_field]
  | cons tb tbs ih => intro s; rw [blocks_register_solution_field, ih]; simp

theorem blocks_update_solution_field_eq (fdata : OversetFieldData) :
    ∀ (tbs : List TiogaBlock) (s : TiogaSTKIface),
      blocks_update_solution_field fdata tbs s =
        { s with log := s.log ++
            tbs.map (fun tb => Call.update_solution_field tb.meshtag_ fdata) } := by
  intro tbs
  induction tbs with
  | nil => intro s; simp [blocks_update_solution_field]
  | cons tb tbs ih => intro s; rw [blocks_update_solution_field, ih]; simp

/-- The combined exchange in closed form. -/
theorem overset_update_fields_eq (fields : List OversetFieldData) (s : TiogaSTKIface) :
    overset_update_fields fields s =
      { s with log := s.log ++ exchange_calls s.blocks_ fields (component_count fields) 0 } := by
  simp only [overset_update_fields, sync_and_count_eq, blocks_register_solution_eq, dataUpdate,
    blocks_update_solution_eq, modify_and_sync_eq, exchange_calls, zero_add, List.append_assoc]

/-- C11: for every list of field descriptors `register_solution` returns the sum
over the list of row count times column count (0 for the empty list), hands this
count to the registration of every block, and `overset_update_fields` hands the
same count to the registration of every block and to the external data update,
the latter with layout flag 0. -/
theorem overset_update_fields_component_count (fields : List OversetFieldData)
    (s : TiogaSTKIface) :
    (register_solution fields s).2 = (fields.map (fun f => f.sizeRow_ * f.sizeCol_)).sum ∧
      (register_solution [] s).2 = 0 ∧
      (register_solution fields s).1.log =
        s.log ++ fields.map (fun f => Call.sync_to_host f.field_) ++
          s.blocks_.map (fun tb => Call.register_solution tb.meshtag_ fields
            (fields.map (fun f => f.sizeRow_ * f.sizeCol_)).sum) ∧
      (overset_update_fields fields s).log =
        s.log ++ exchange_calls s.blocks_ fields
          (fields.map (fun f => f.sizeRow_ * f.sizeCol_)).sum 0 := by
  refine ⟨?_, ?_, ?_, ?_⟩
  · simp [register_solution, sync_and_count_eq, component_count]
  · simp [register_solution, sync_and_count]
  · simp [register_solution, sync_and_count_eq, blocks_register_solution_eq, component_count]
  · rw [overset_update_fields_eq]
    rfl

/-- C12: for every field, row and column count, `overset_update_field` first
synchronizes the field to host, lets every block register it, calls the external
data update with rows times columns components and flag 0, lets every block pull
back, marks the field modified on host, and synchronizes it to device at the end
exactly when `doFinalSyncToDevice` is true. -/
theorem overset_update_field_calls (field : Nat) (nrows ncols : Int)
    (doFinalSyncToDevice : Bool) (s : TiogaSTKIface) :
    (overset_update_field field nrows ncols doFinalSyncToDevice s).log =
        s.log ++ [Call.sync_to_host field] ++
          s.blocks_.map (fun tb => Call.register_solution_field tb.meshtag_
            ⟨field, nrows, ncols⟩) ++
          [Call.dataUpdate (nrows * ncols) 0] ++
          s.blocks_.map (fun tb => Call.update_solution_field tb.meshtag_
            ⟨field, nrows, ncols⟩) ++
          [Call.modify_on_host field] ++
          (if doFinalSyncToDevice = true then [Call.sync_to_device field] else []) ∧
      (Call.sync_to_device field ∈
          (overset_update_field field nrows ncols doFinalSyncToDevice s).log.drop s.log.length ↔
        doFinalSyncToDevice = true) ∧
      Call.modify_on_host field ∈
        (overset_update_field field nrows ncols doFinalSyncToDevice s).log.drop s.log.length := by
  have hlog : (overset_update_field field nrows ncols doFinalSyncToDevice s).log =
      s.log ++ ([Call.sync_to_host field] ++
          s.blocks_.map (fun tb => Call.register_solution_field tb.meshtag_
            ⟨field, nrows, ncols⟩) ++
          [Call.dataUpdate (nrows * ncols) 0] ++
          s.blocks_.map (fun tb => Call.update_solution_field tb.meshtag_
            ⟨field, nrows, ncols⟩) ++
          [Call.modify_on_host field] ++
          (if doFinalSyncToDevice = true then [Call.sync_to_device field] else [])) := by
    cases doFinalSyncToDevice <;>
      simp [overset_update_field, blocks_register_solution_field_eq, dataUpdate,
        blocks_update_solution_field_eq]
  refine ⟨?_, ?_, ?_⟩
  · rw [hlog]
    simp only [List.append_assoc]
  · rw [hlog, List.drop_left]
    cases doFinalSyncToDevice <;> simp
  · rw [hlog, List.drop_left]
    simp

/-- C18: for every list of field descriptors, `overset_update_fields` reaches
the state, and hence makes the sequence of field syncs, block registrations,
data update and block pull-backs, of `register_solution` followed by the
external data update with the returned count and flag 0 and by
`update_solution`. -/
theorem overset_update_fields_refines (fields : List OversetFieldData) (s : TiogaSTKIface) :
    overset_update_fields fields s =
        update_solution fields
          (dataUpdate (register_solution fields s).2 0 (register_solution fields s).1) ∧
      (update_solution fields
          (dataUpdate (register_solution fields s).2 0 (register_solution fields s).1)).log =
        s.log ++ exchange_calls s.blocks_ fields (component_count fields) 0 := by
  have h : overset_update_fields fields s =
      update_solution fields
        (dataUpdate (register_solution fields s).2 0 (register_solution fields s).1) := rfl
  refine ⟨h, ?_⟩
  rw [← h, overset_update_fields_eq]

/-! ### The first loop of get_receptor_info and the gather step -/

theorem reset_triples_eq (rank : Nat) (nodeID donorID : EntityId) (sprocs : List Nat) :
    reset_triples rank nodeID donorID sprocs =
      flatten_triples ((sprocs.filter (fun jproc => decide (jproc ≠ rank))).map
        (fun jproc => (jproc, nodeID, donorID))) := by
  induction sprocs with
  | nil => rfl
  | cons j sprocs ih =>
    by_cases hj : j = rank
    · simp only [reset_triples, hj, if_true, ih, ne_eq, not_true_eq_false, decide_False,
        List.filter_cons, Bool.false_eq_true, if_false]
    · simp only [reset_triples, hj, if_false, ih, ne_eq, not_false_eq_true, decide_True,
        List.filter_cons, if_true, List.map_cons, flatten_triples, List.flatMap_cons,
        List.cons_append, List.nil_append]

/-- One pass of the first loop over a receptor record. -/
theorem receptor_loop_step (bulk : BulkData) (blocks : List TiogaBlock)
    (iblank : EntityId → Int) (r : Int × Int × Int) (rest : List Int) (acc : ReceptorScan) :
    receptor_loop bulk blocks iblank (r.1 :: r.2.1 :: r.2.2 :: rest) acc =
      receptor_loop bulk blocks iblank rest
        ⟨acc.nodesToReset ++ flatten_triples (correction_triples bulk blocks iblank r),
          acc.donorIDs_ ++ [to_entity_id r.2.2],
          acc.receptorIDs_ ++ [decoded_node blocks r]⟩ := by
  rw [receptor_loop]
  simp only [BulkData.get_entity, correction_triples, decoded_node, to_entity_id,
    reset_triples_eq]
  by_cases ho : bulk.owned ⟨.NODE_RANK, node_id_at blocks (r.2.1 - 1) r.1⟩ = true
  · simp [ho, flatten_triples]
  · have ho2 : bulk.owned ⟨.NODE_RANK, node_id_at blocks (r.2.1 - 1) r.1⟩ = false := by
      simpa using ho
    by_cases hi : iblank (node_id_at blocks (r.2.1 - 1) r.1) > -1
    · simp [ho2, hi]
    · simp [ho2, hi, flatten_triples]

/-- The first loop in closed form on an array of whole records. -/
theorem receptor_loop_eq (bulk : BulkData) (blocks : List TiogaBlock)
    (iblank : EntityId → Int) :
    ∀ (records : List (Int × Int × Int)) (acc : ReceptorScan),
      receptor_loop bulk blocks iblank (flatten_records records) acc =
        ⟨acc.nodesToReset ++
            flatten_triples (records.flatMap (correction_triples bulk blocks iblank)),
          acc.donorIDs_ ++ records.map (fun r => to_entity_id r.2.2),
          acc.receptorIDs_ ++ records.map (decoded_node blocks)⟩ := by
  intro records
  induction records with
  | nil => intro acc; simp [flatten_records, receptor_loop, flatten_triples]
  | cons r records ih =>
    intro acc
    have hcons : flatten_records (r :: records) =
        r.1 :: r.2.1 :: r.2.2 :: flatten_records records := by
      simp [flatten_records]
    rw [hcons, receptor_loop_step, ih]
    simp [flatten_triples, List.append_assoc]

theorem write_at_append_left (buf data : List Nat) :
    ∀ pre : List Nat, write_at (pre ++ buf) pre.length data = pre ++ write_at buf 0 data := by
  intro pre
  induction pre with
  | nil => rfl
  | cons a pre ih =>
    show write_at (a :: (pre ++ buf)) (pre.length + 1) data = a :: (pre ++ write_at buf 0 data)
    rw [write_at, ih]

theorem write_at_zero :
    ∀ (data buf : List Nat), data.length ≤ buf.length →
      write_at buf 0 data = data ++ buf.drop data.length := by
  intro data
  induction data with
  | nil => intro buf _; cases buf <;> rfl
  | cons d data ih =>
    intro buf h
    cases buf with
    | nil => simp at h
    | cons b buf =>
      simp only [List.length_cons, Nat.add_le_add_iff_right] at h
      simp only [write_at, ih buf h, List.cons_append, List.length_cons, List.drop_succ_cons]

/-- The gather step puts the send buffers one after the other, in rank order. -/
theorem allgatherv_flatten :
    ∀ (sends : List (List Nat)) (pre : List Nat),
      allgatherv sends (sends.map List.length)
          (pre.length :: offsets_loop (sends.map List.length) pre.length)
          (pre ++ List.replicate (sends.map List.length).sum 0) = pre ++ sends.flatten := by
  intro sends
  induction sends with
  | nil => intro pre; simp [allgatherv]
  | cons x xs ih =>
    intro pre
    simp only [List.map_cons, List.sum_cons, offsets_loop, allgatherv, List.take_length,
      List.flatten_cons]
    rw [write_at_append_left, write_at_zero _ _ (by simp)]
    have hdrop : (List.replicate (x.length + (xs.map List.length).sum) 0).drop x.length =
        List.replicate (xs.map List.length).sum 0 := by
      simp
    rw [hdrop, ← List.append_assoc]
    have hlen : pre.length + x.length = (pre ++ x).length := by simp
    rw [hlen, ih (pre ++ x), List.append_assoc]

theorem gather_entities_eq_flatten (nodesToReset : List (List Nat)) :
    gather_entities nodesToReset = nodesToReset.flatten := by
  have h := allgatherv_flatten nodesToReset []
  simpa [gather_entities, build_offsets] using h

theorem offsets_loop_getElem? :
    ∀ (nbPerProc : List Nat) (last i : Nat), i < nbPerProc.length →
      (offsets_loop nbPerProc last)[i]? = some (last + (nbPerProc.take (i + 1)).sum) := by
  intro nbPerProc
  induction nbPerProc with
  | nil => intro last i h; simp at h
  | cons nb nbs ih =>
    intro last i h
    cases i with
    | zero => simp [offsets_loop]
    | succ i =>
      simp only [List.length_cons, Nat.add_lt_add_iff_right] at h
      have htake : List.take (i + 1 + 1) (nb :: nbs) = nb :: List.take (i + 1) nbs := rfl
      simp only [offsets_loop, List.getElem?_cons_succ, ih (last + nb) i h, htake,
        List.sum_cons]
      rw [add_assoc]

theorem offsets_loop_length :
    ∀ (nbPerProc : List Nat) (last : Nat),
      (offsets_loop nbPerProc last).length = nbPerProc.length := by
  intro nbPerProc
  induction nbPerProc with
  | nil => intro last; rfl
  | cons nb nbs ih => intro last; simp [offsets_loop, ih]

theorem build_offsets_getElem? (nbPerProc : List Nat) (i : Nat) (h : i ≤ nbPerProc.length) :
    (build_offsets nbPerProc)[i]? = some (nbPerProc.take i).sum := by
  cases i with
  | zero => simp [build_offsets]
  | succ i =>
    simp only [build_offsets, List.getElem?_cons_succ]
    rw [offsets_loop_getElem? nbPerProc 0 i h, zero_add]

/-- Every position of the gathered buffer lies in the segment of exactly one
rank. -/
theorem segment_exists_unique :
    ∀ (nbPerProc : List Nat) (p : Nat), p < nbPerProc.sum →
      ∃! r : Nat, r < nbPerProc.length ∧ (nbPerProc.take r).sum ≤ p ∧
        p < (nbPerProc.take r).sum + nbPerProc.getD r 0 := by
  intro nbPerProc
  induction nbPerProc with
  | nil => intro p h; simp at h
  | cons nb nbs ih =>
    intro p h
    simp only [List.sum_cons] at h
    by_cases hp : p < nb
    · refine ⟨0, ?_, ?_⟩
      · simp [hp]
      · rintro r ⟨_, h2, _⟩
        cases r with
        | zero => rfl
        | succ r =>
          simp only [List.take_succ_cons, List.sum_cons] at h2
          omega
    · obtain ⟨r, ⟨hr1, hr2, hr3⟩, huniq⟩ := ih (p - nb) (by omega)
      refine ⟨r + 1, ?_, ?_⟩
      · simp only [List.length_cons, Nat.add_lt_add_iff_right, List.take_succ_cons,
          List.sum_cons, List.getD_cons_succ]
        refine ⟨hr1, by omega, by omega⟩
      · rintro q ⟨hq1, hq2, hq3⟩
        cases q with
        | zero =>
          simp at hq3
          omega
        | succ q =>
          simp only [List.length_cons, Nat.add_lt_add_iff_right, List.take_succ_cons,
            List.sum_cons, List.getD_cons_succ] at hq1 hq2 hq3
          have := huniq q ⟨hq1, by omega, by omega⟩
          omega

/-- C14: for every receptor record of the array, the first loop of
`get_receptor_info` appends to `nodesToReset` the correction triples of the
record and nothing else: when the local rank does not own the receptor node and
the node's iblank value is greater than -1, one triple (target rank, node id,
donor id) for every rank sharing the node other than the local rank, in the
order of the sharing ranks; none otherwise.  So triples are emitted exactly when
both conditions hold and the node has a sharing rank other than the local one,
which every shared node has. -/
theorem receptor_loop_emits (bulk : BulkData) (blocks : List TiogaBlock)
    (iblank : EntityId → Int) (r : Int × Int × Int) (rest : List Int) (acc : ReceptorScan) :
    receptor_loop bulk blocks iblank (r.1 :: r.2.1 :: r.2.2 :: rest) acc =
        receptor_loop bulk blocks iblank rest
          ⟨acc.nodesToReset ++ flatten_triples (correction_triples bulk blocks iblank r),
            acc.donorIDs_ ++ [to_entity_id r.2.2],
            acc.receptorIDs_ ++ [decoded_node blocks r]⟩ ∧
      (bulk.owned ⟨.NODE_RANK, decoded_node blocks r⟩ = false ∧
          iblank (decoded_node blocks r) > -1 →
        correction_triples bulk blocks iblank r =
          ((bulk.comm_shared_procs ⟨.NODE_RANK, decoded_node blocks r⟩).filter
            (fun jproc => decide (jproc ≠ bulk.parallel_rank))).map
            (fun jproc => (jproc, decoded_node blocks r, to_entity_id r.2.2))) ∧
      (¬ (bulk.owned ⟨.NODE_RANK, decoded_node blocks r⟩ = false ∧
          iblank (decoded_node blocks r) > -1) →
        correction_triples bulk blocks iblank r = []) ∧
      (correction_triples bulk blocks iblank r ≠ [] ↔
        bulk.owned ⟨.NODE_RANK, decoded_node blocks r⟩ = false ∧
          iblank (decoded_node blocks r) > -1 ∧
          ∃ jproc ∈ bulk.comm_shared_procs ⟨.NODE_RANK, decoded_node blocks r⟩,
            jproc ≠ bulk.parallel_rank) ∧
      ∀ records : List (Int × Int × Int),
        (receptor_loop bulk blocks iblank (flatten_records records) ⟨[], [], []⟩).nodesToReset =
          flatten_triples (records.flatMap (correction_triples bulk blocks iblank)) := by
  refine ⟨receptor_loop_step bulk blocks iblank r rest acc, ?_, ?_, ?_, ?_⟩
  · intro h
    simp only [correction_triples, h, and_self, if_true]
  · intro h
    simp only [correction_triples, h, if_false]
  · by_cases h : bulk.owned ⟨.NODE_RANK, decoded_node blocks r⟩ = false ∧
        iblank (decoded_node blocks r) > -1
    · simp only [correction_triples, h, and_self, if_true, ne_eq, List.map_eq_nil_iff,
        List.filter_eq_nil_iff, decide_eq_true_eq, not_forall, not_not, true_and]
      constructor
      · rintro ⟨j, hj, hne⟩
        exact ⟨j, hj, hne⟩
      · rintro ⟨j, hj, hne⟩
        exact ⟨j, hj, hne⟩
    · simp only [correction_triples, h, if_false, ne_eq, not_true_eq_false, false_iff]
      intro hc
      exact h ⟨hc.1, hc.2.1⟩
  · intro records
    rw [receptor_loop_eq]
    simp

/-- C15: when a rank enters `get_receptor_info` with empty id lists and a
receptor array of whole records, it leaves with the receptor-id list made of the
decoded node ids of the records in array order followed by the node ids of the
gathered triples addressed to it, and the donor-id list made of the donor ids of
the records followed by the donor ids of the same triples; the gathered triples
are those of all ranks in rank order, and the two lists have the same length. -/
theorem get_receptor_info_id_lists (w : World) (i : Nat) (s : TiogaSTKIface)
    (records : List (Int × Int × Int)) (hs : w[i]? = some s)
    (hd : s.donorIDs_ = []) (hr : s.receptorIDs_ = [])
    (hrec : s.tg_.receptors = flatten_records records) :
    ∃ s1, (get_receptor_info w)[i]? = some s1 ∧
      s1.receptorIDs_ = records.map (decoded_node s.blocks_) ++
        (addressed_to s.bulk_.parallel_rank
          (to_triples (w.map (fun t => (get_receptor_info_local t).2)).flatten)).map
          (fun t => t.2.1) ∧
      s1.donorIDs_ = records.map (fun r => to_entity_id r.2.2) ++
        (addressed_to s.bulk_.parallel_rank
          (to_triples (w.map (fun t => (get_receptor_info_local t).2)).flatten)).map
          (fun t => t.2.2) ∧
      s1.receptorIDs_.length = s1.donorIDs_.length ∧
      ∀ donor : Int, 0 ≤ donor → donor < (two64 : Int) → to_entity_id donor = donor.toNat := by
  refine ⟨reconcile_loop s.bulk_.parallel_rank
    (gather_entities (w.map (fun t => (get_receptor_info_local t).2)))
    (get_receptor_info_local s).1, ?_, ?_, ?_, ?_, ?_⟩
  · rw [get_receptor_info_eq, List.getElem?_map, hs]
    rfl
  · rw [reconcile_loop_eq, gather_entities_eq_flatten]
    simp only [get_receptor_info_local, hrec, hd, hr, receptor_loop_eq, List.nil_append]
  · rw [reconcile_loop_eq, gather_entities_eq_flatten]
    simp only [get_receptor_info_local, hrec, hd, hr, receptor_loop_eq, List.nil_append]
  · rw [reconcile_loop_eq]
    simp only [get_receptor_info_local, hrec, hd, hr, receptor_loop_eq, List.nil_append,
      List.length_append, List.length_map]
  · intro donor h0 h1
    unfold to_entity_id
    rw [Int.emod_eq_of_lt h0 h1]

/-- Witness of C15 on rank 0 of the second two-rank machine: its two records
decode to the nodes 2 and 4 with donor 10, and no gathered triple is addressed
to it. -/
theorem get_receptor_info_id_lists_witness :
    ∃ s1, (get_receptor_info demo_two_fringes)[0]? = some s1 ∧
      s1.receptorIDs_ = [2, 4] ∧ s1.donorIDs_ = [10, 10] := by
  obtain ⟨s1, h1, h2, h3, _⟩ := get_receptor_info_id_lists demo_two_fringes 0
    (demo_two_fringes.get ⟨0, by decide⟩) [(0, 1, 10), (1, 1, 10)]
    (List.getElem?_eq_getElem _) rfl rfl rfl
  exact ⟨s1, h1, h2.trans (by decide), h3.trans (by decide)⟩

/-- C16: for every vector of per-rank lengths, the offset table built by
`get_receptor_info` has one entry more than there are ranks, starts with 0, and
its entry i is the sum of the lengths of the ranks before i; its last entry is
the size of the gathered buffer; every position of the buffer lies in the
segment of exactly one rank, and the gather step fills the buffer with the send
buffers of the ranks in rank order. -/
theorem build_offsets_prefix_sums (nbPerProc : List Nat) :
    (build_offsets nbPerProc).length = nbPerProc.length + 1 ∧
      (build_offsets nbPerProc)[0]? = some 0 ∧
      (∀ i : Nat, i ≤ nbPerProc.length →
        (build_offsets nbPerProc)[i]? = some (nbPerProc.take i).sum) ∧
      (build_offsets nbPerProc)[nbPerProc.length]? = some nbPerProc.sum ∧
      (∀ p : Nat, p < nbPerProc.sum →
        ∃! r : Nat, r < nbPerProc.length ∧ (nbPerProc.take r).sum ≤ p ∧
          p < (nbPerProc.take r).sum + nbPerProc.getD r 0) ∧
      ∀ nodesToReset : List (List Nat), nodesToReset.map List.length = nbPerProc →
        gather_entities nodesToReset = nodesToReset.flatten ∧
          (gather_entities nodesToReset).length = nbPerProc.sum := by
  refine ⟨?_, ?_, ?_, ?_, ?_, ?_⟩
  · simp [build_offsets, offsets_loop_length]
  · simp [build_offsets]
  · intro i hi
    exact build_offsets_getElem? nbPerProc i hi
  · rw [build_offsets_getElem? nbPerProc nbPerProc.length (le_refl _), List.take_length]
  · exact segment_exists_unique nbPerProc
  · intro nodesToReset hlen
    refine ⟨gather_entities_eq_flatten nodesToReset, ?_⟩
    rw [gather_entities_eq_flatten, List.length_flatten, hlen]

/-! ### load -/

/-- The block the loop of `load` creates at a position. -/
theorem load_loop_getElem? (offset : Int) :
    ∀ (oset_groups : List MeshGroup) (i k : Nat),
      (load_loop offset oset_groups i)[k]? =
        (oset_groups[k]?).map (fun g => TiogaBlock.create g (offset + ((i + k : Nat) : Int) + 1)) := by
  intro oset_groups
  induction oset_groups with
  | nil => intro i k; simp [load_loop]
  | cons g gs ih =>
    intro i k
    cases k with
    | zero => simp [load_loop]
    | succ k =>
      simp only [load_loop, List.getElem?_cons_succ, ih]
      have h : i + 1 + k = i + (k + 1) := by omega
      rw [h]

theorem load_loop_length (offset : Int) :
    ∀ (oset_groups : List MeshGroup) (i : Nat),
      (load_loop offset oset_groups i).length = oset_groups.length := by
  intro oset_groups
  induction oset_groups with
  | nil => intro i; rfl
  | cons g gs ih => intro i; simp [load_loop, ih]

/-- Every tag the loop of `load` hands out from index `i` on is of the form
offset + k + 1 with k at least `i`. -/
theorem load_loop_tag_lower (offset : Int) :
    ∀ (oset_groups : List MeshGroup) (i : Nat) (tb : TiogaBlock),
      tb ∈ load_loop offset oset_groups i → offset + (i : Int) + 1 ≤ tb.meshtag_ := by
  intro oset_groups
  induction oset_groups with
  | nil => intro i tb h; simp [load_loop] at h
  | cons g gs ih =>
    intro i tb h
    simp only [load_loop, List.mem_cons] at h
    rcases h with rfl | h
    · simp [TiogaBlock.create]
    · have := ih (i + 1) tb h
      push_cast at this
      omega

theorem load_loop_nodup (offset : Int) :
    ∀ (oset_groups : List MeshGroup) (i : Nat),
      ((load_loop offset oset_groups i).map (fun tb => tb.meshtag_)).Nodup := by
  intro oset_groups
  induction oset_groups with
  | nil => intro i; simp [load_loop]
  | cons g gs ih =>
    intro i
    simp only [load_loop, List.map_cons, List.nodup_cons, List.mem_map, not_exists, not_and]
    refine ⟨?_, ih (i + 1)⟩
    intro tb htb heq
    have := load_loop_tag_lower offset gs (i + 1) tb htb
    simp only [TiogaBlock.create] at heq
    push_cast at this
    omega

/-- C13, as stated, fails: with one mesh group and the configured tag offset -1
the only block receives the tag 0, which is not positive. -/
theorem load_negative_offset_tag :
    (load ⟨[⟨[]⟩], some (-1)⟩ demo_rank0).blocks_.map (fun tb => tb.meshtag_) = [0] ∧
      ¬ ∀ tb ∈ (load ⟨[⟨[]⟩], some (-1)⟩ demo_rank0).blocks_, 0 < tb.meshtag_ := by
  constructor
  · decide
  · decide

/-- C13, amended: for every mesh-group list with n entries and every configured
tag offset (0 when none is configured), `load` creates n blocks whose tags are
pairwise distinct, the block at position i receiving the tag offset + i + 1;
the tags are positive when the offset is not negative, and only then if there is
a block at all. -/
theorem load_block_tags (node : OversetYaml) (s : TiogaSTKIface) :
    (load node s).blocks_.length = node.mesh_group.length ∧
      (∀ i : Nat, i < node.mesh_group.length →
        ((load node s).blocks_[i]?).map (fun tb => tb.meshtag_) =
          some (node.mesh_tag_offset.getD 0 + (i : Int) + 1)) ∧
      ((load node s).blocks_.map (fun tb => tb.meshtag_)).Nodup ∧
      (0 ≤ node.mesh_tag_offset.getD 0 → ∀ tb ∈ (load node s).blocks_, 0 < tb.meshtag_) ∧
      (node.mesh_group ≠ [] → (∀ tb ∈ (load node s).blocks_, 0 < tb.meshtag_) →
        0 ≤ node.mesh_tag_offset.getD 0) := by
  have hoff : (match node.mesh_tag_offset with
      | some v => v
      | none => 0) = node.mesh_tag_offset.getD 0 := by
    cases node.mesh_tag_offset <;> rfl
  simp only [load, hoff]
  refine ⟨load_loop_length _ _ _, ?_, load_loop_nodup _ _ _, ?_, ?_⟩
  · intro i hi
    rw [load_loop_getElem?, List.getElem?_eq_getElem hi]
    simp [TiogaBlock.create]
  · intro h0 tb htb
    have := load_loop_tag_lower _ _ _ tb htb
    push_cast at this
    omega
  · intro hne hpos
    cases hg : node.mesh_group with
    | nil => exact absurd hg hne
    | cons g gs =>
      rw [hg] at hpos
      have := hpos (TiogaBlock.create g (node.mesh_tag_offset.getD 0 + ((0 : Nat) : Int) + 1))
        (by simp [load_loop])
      simp only [TiogaBlock.create] at this
      push_cast at this
      omega

/-- C17 on the failing input: with one mesh group and the configured tag offset
1, `load` gives the block at position 0 the tag 2; the block index
`get_receptor_info` computes from this tag is 2 - 1 = 1, which is not 0 and
designates no block of the list. -/
theorem load_offset_block_index :
    (load ⟨[⟨[]⟩], some 1⟩ demo_rank0).blocks_.map (fun tb => tb.meshtag_) = [2] ∧
      ((2 : Int) - 1).toNat ≠ 0 ∧
      (load ⟨[⟨[]⟩], some 1⟩ demo_rank0).blocks_[((2 : Int) - 1).toNat]? = none := by
  refine ⟨by decide, by decide, by decide⟩

end tioga_nalu

/-! ### The pressure-gradient function -/

namespace BLTGammaM2015NodeKernel

/-- C19: over the rationals, for every input the function `FPG` returns a value
between 1 and 3, at most 1.5 when the input is not negative, and 1 at input 0;
the final clamp at 0 leaves the value computed before it unchanged. -/
theorem FPG_bounds (lamda0L : ℚ) :
    1 ≤ FPG lamda0L ∧ FPG lamda0L ≤ 3 ∧ (0 ≤ lamda0L → FPG lamda0L ≤ 1.5) ∧
      FPG 0 = 1 ∧ FPG lamda0L = FPG_unclamped lamda0L := by
  have hz : (0.0 : ℚ) = 0 := by norm_num
  have hlow : 1 ≤ FPG_unclamped lamda0L := by
    unfold FPG_unclamped
    split
    · rename_i h
      rw [ge_iff_le, hz] at h
      rw [le_min_iff]
      constructor
      · nlinarith
      · norm_num
    · rename_i h
      rw [ge_iff_le, hz, not_le] at h
      rw [le_min_iff]
      constructor
      · norm_num
        nlinarith
      · norm_num
  have hup : FPG_unclamped lamda0L ≤ 3 := by
    unfold FPG_unclamped
    split
    · exact le_trans (min_le_right _ _) (by norm_num)
    · exact le_trans (min_le_right _ _) (by norm_num)
  have hclamp : FPG lamda0L = FPG_unclamped lamda0L := by
    unfold FPG
    apply max_eq_left
    rw [hz]
    linarith
  refine ⟨?_, ?_, ?_, ?_, hclamp⟩
  · rw [hclamp]
    exact hlow
  · rw [hclamp]
    exact hup
  · intro h0
    rw [hclamp]
    unfold FPG_unclamped
    have hc : lamda0L ≥ 0.0 := by
      rw [ge_iff_le, hz]
      exact h0
    rw [if_pos hc]
    exact min_le_right _ _
  · unfold FPG FPG_unclamped
    norm_num

end BLTGammaM2015NodeKernel
